import Mathlib

/-!
Verification development for the terminal Screen subsystem of the contour
repository.  The repository sources available here contain only the class
declaration `src/terminal/Screen.h`; the member functions that are declared
there but implemented elsewhere are modelled from the specification
(`spec.md`), as noted in each doc comment.  Inline member functions that do
appear in `Screen.h` (`contains`, `isPrimaryScreen`, `isAlternateScreen`,
`isModeEnabled`, `setTabWidth`, `reply`, `historyLineCount`, `screenshot`
delegation) are translated directly from the header.
-/

namespace Contour

/-- Screen dimensions in characters, `WindowSize = {columns, rows}` (spec §3). -/
structure WindowSize where
  columns : Nat
  rows : Nat
deriving DecidableEq, Repr

/-- 1-based screen coordinate `{row, column}` (spec §3). -/
structure Coordinate where
  row : Nat
  column : Nat
deriving DecidableEq, Repr

/-- Color variant (spec §3): Default, Indexed(0..255), BrightIndexed(0..7),
RGB(r,g,b), DefaultForeground, DefaultBackground. -/
inductive Color where
  | defaultColor
  | indexed (n : Nat)
  | brightIndexed (n : Nat)
  | rgb (r g b : Nat)
  | defaultForeground
  | defaultBackground
deriving DecidableEq, Repr

/-- Graphics rendition of a cell (spec §3): foreground color, background
color and the attribute set, of which bold / underline / inverse are
modelled here. -/
structure GraphicsAttributes where
  foregroundColor : Color
  backgroundColor : Color
  bold : Bool
  underline : Bool
  inverse : Bool
deriving DecidableEq, Repr

/-- The default (reset) rendition. -/
def defaultAttributes : GraphicsAttributes :=
  ⟨Color.defaultColor, Color.defaultColor, false, false, false⟩

/-- A grid cell (spec §3).  The base codepoint of the grapheme cluster is
modelled (combining marks are out of scope, the spec treats grapheme
segmentation as an external library, §1); `width` is its display width,
width 0 marking the trailing half of a wide character. -/
structure Cell where
  codepoint : Nat
  width : Nat
  attributes : GraphicsAttributes
deriving DecidableEq, Repr

/-- Modelled from the spec: display width of a codepoint.  The real code
delegates to the external `unicode/width` library (declared out of scope in
spec §1); modelled as 2 on representative east-asian wide ranges, 1
otherwise. -/
def charWidth (cp : Nat) : Nat :=
  if (0x1100 ≤ cp ∧ cp ≤ 0x115F) ∨ (0x2E80 ≤ cp ∧ cp ≤ 0xA4CF)
      ∨ (0xAC00 ≤ cp ∧ cp ≤ 0xD7A3) ∨ (0xF900 ≤ cp ∧ cp ≤ 0xFAFF)
      ∨ (0xFF00 ≤ cp ∧ cp ≤ 0xFF60) ∨ (0x20000 ≤ cp ∧ cp ≤ 0x3FFFD)
  then 2 else 1

/-- A blank cell: a space with default rendition. -/
def blankCell : Cell := ⟨0x20, 1, defaultAttributes⟩

/-- The trailing-half sentinel cell following a width-2 base (spec §3):
width 0, empty codepoints, sharing the leader's rendition. -/
def trailingCell (a : GraphicsAttributes) : Cell := ⟨0, 0, a⟩

/-- Well-formedness scanner for a row of cells: `none` means the scanner is
at a cell boundary, `some a` means a width-2 leader with attributes `a` was
just read and its trailing half must follow.  Returns `none` on a violation
of the wide-cell discipline of spec §3. -/
def wfScan : Option GraphicsAttributes → List Cell → Option (Option GraphicsAttributes)
  | st, [] => some st
  | none, c :: rest =>
      if c.width = 1 ∧ charWidth c.codepoint = 1 then wfScan none rest
      else if c.width = 2 ∧ charWidth c.codepoint = 2 then wfScan (some c.attributes) rest
      else none
  | some a, c :: rest => if c = trailingCell a then wfScan none rest else none

/-- A well-formed row: every width-2 base is immediately followed by its
trailing half and widths match the codepoint (spec §3 invariants). -/
def wfRow (cells : List Cell) : Prop := wfScan none cells = some none

instance (cells : List Cell) : Decidable (wfRow cells) := by
  unfold wfRow; infer_instance

/-- Blank the first cell of a list (used to repair the orphaned trailing
half after its leader has been overwritten). -/
def blankHead : List Cell → List Cell
  | [] => []
  | _ :: rest => blankCell :: rest

/-- Overwrite the first cell of a list with the given cell (used when the
write target was the trailing half of a wide pair whose leader has just
been blanked). -/
def overHead : List Cell → Cell → List Cell
  | [], _ => []
  | _ :: rest, cell => cell :: rest

/-- Modelled from the spec: writing a single-width cell at 0-based column
`c` of a row, overwriting wide pairs atomically (spec §3: a trailing half
"must be overwritten atomically with its leader").  Overwriting a leader
blanks its trailing half; overwriting a trailing half blanks its leader. -/
def putRow : List Cell → Nat → Cell → List Cell
  | [], _, _ => []
  | x :: xs, 0, cell => if x.width = 2 then cell :: blankHead xs else cell :: xs
  | x :: xs, 1, cell =>
      if x.width = 2 then blankCell :: overHead xs cell else x :: putRow xs 0 cell
  | x :: xs, c+2, cell => x :: putRow xs (c+1) cell

/-- Modelled from the spec: writing a width-2 character (leader plus
trailing half) at 0-based column `c`, with the same atomic-overwrite
repairs as `putRow`. -/
def putRow2 : List Cell → Nat → Nat → GraphicsAttributes → List Cell
  | [], _, _, _ => []
  | [x], 0, _, _ => [x]
  | _ :: y :: xs, 0, cp, a =>
      Cell.mk cp 2 a :: trailingCell a :: (if y.width = 2 then blankHead xs else xs)
  | x :: xs, 1, cp, a =>
      if x.width = 2 then blankCell :: putRow2 xs 0 cp a else x :: putRow2 xs 0 cp a
  | x :: xs, c+2, cp, a => x :: putRow2 xs (c+1) cp a

/-- A grid line: exactly `columns` cells plus the soft-wrap flag (spec §3). -/
structure Line where
  cells : List Cell
  wrapped : Bool
deriving DecidableEq, Repr

/-- A blank line of the given width. -/
def blankLine (columns : Nat) : Line := ⟨List.replicate columns blankCell, false⟩

/-- Terminal modes (spec §3); the subset acted on by the modelled commands.
`visibleCursor` is carried but has no effect on the grid, representing the
modes that only toggle flags. -/
inductive Mode where
  | autoWrap
  | origin
  | useAlternateScreen
  | visibleCursor
deriving DecidableEq, Repr

/-- `ScreenBuffer::Type` (Screen.h line 70 / spec §3). -/
inductive ScreenBufferType where
  | primary
  | alternate
deriving DecidableEq, Repr

/-- Top/bottom scroll margin, inclusive 1-based (spec §3; the left/right
margins of mode DECLRMM are not modelled, the effective horizontal margin
is always the full line). -/
structure Margin where
  top : Nat
  bottom : Nat
deriving DecidableEq, Repr

/-- `ScreenBuffer::Cursor` (spec §3): 1-based position, current rendition,
and the pending-autowrap flag. -/
structure Cursor where
  position : Coordinate
  graphicsRendition : GraphicsAttributes
  autoWrapPending : Bool
deriving DecidableEq, Repr

/-- Modelled from the spec: the `ScreenBuffer` of spec §3 (its header is
not under src/).  `savedLines` is the scrollback, oldest first; `lines` are
the visible rows; tab stops, hyperlinks and markers are omitted (no claim
touches them). -/
structure ScreenBuffer where
  type : ScreenBufferType
  size : WindowSize
  savedLines : List Line
  lines : List Line
  cursor : Cursor
  savedCursor : Cursor
  margin : Margin
  enabledModes : List Mode
  tabWidth : Nat
  maxHistoryLineCount : Option Nat
deriving DecidableEq, Repr

/-- An SGR parameter item (spec §3 `SetGraphicsRendition{list of SGR items}`;
the modelled subset). -/
inductive SgrItem where
  | reset
  | bold
  | underline
  | inverse
  | foreground (c : Color)
  | background (c : Color)
deriving DecidableEq, Repr

/-- Modelled from the spec: applying one SGR item to the current rendition. -/
def applySgr (a : GraphicsAttributes) : SgrItem → GraphicsAttributes
  | SgrItem.reset => defaultAttributes
  | SgrItem.bold => { a with bold := true }
  | SgrItem.underline => { a with underline := true }
  | SgrItem.inverse => { a with inverse := true }
  | SgrItem.foreground c => { a with foregroundColor := c }
  | SgrItem.background c => { a with backgroundColor := c }

/-- The SGR item list that re-establishes a given rendition from any state
(used by `screenshot`). -/
def sgrOfAttrs (a : GraphicsAttributes) : List SgrItem :=
  SgrItem.reset ::
    ((if a.bold then [SgrItem.bold] else []) ++
     (if a.underline then [SgrItem.underline] else []) ++
     (if a.inverse then [SgrItem.inverse] else []) ++
     [SgrItem.foreground a.foregroundColor, SgrItem.background a.backgroundColor])

namespace ScreenBuffer

/-- Whether a mode flag is set in this buffer's mode set
(`enabledModes_.find(m) != end`, Screen.h line 359). -/
def modeSet (b : ScreenBuffer) (m : Mode) : Bool := decide (m ∈ b.enabledModes)

/-- Modelled from the spec: trim the scrollback to the history bound,
dropping the oldest (front) lines (spec §3: "oldest lines are dropped when
exceeded"; §5: "evictions drop the oldest line entirely"). -/
def trimHistory (max? : Option Nat) (ls : List Line) : List Line :=
  match max? with
  | none => ls
  | some m => ls.drop (ls.length - m)

/-- Modelled from the spec: scroll the margin region up by `n` lines
(spec §4.4 Scroll region).  On the primary buffer with top margin 1 the
lines scrolled off the top move into the scrollback, bounded by
`maxHistoryLineCount`; otherwise they are discarded. -/
def scrollUpN (b : ScreenBuffer) (n : Nat) : ScreenBuffer :=
  let t := b.margin.top
  let bt := b.margin.bottom
  let n' := min n (bt + 1 - t)
  let pre := b.lines.take (t - 1)
  let region := (b.lines.drop (t - 1)).take (bt + 1 - t)
  let post := b.lines.drop bt
  let removed := region.take n'
  let rest := region.drop n'
  let region' := rest ++ List.replicate n' (blankLine b.size.columns)
  { b with
    lines := pre ++ region' ++ post
    savedLines :=
      if t = 1 ∧ b.type = ScreenBufferType.primary then
        trimHistory b.maxHistoryLineCount (b.savedLines ++ removed)
      else b.savedLines }

/-- Modelled from the spec: scroll the margin region down by `n` lines
(blank lines enter at the top of the region, the bottom lines are
discarded; scrollback is not involved). -/
def scrollDownN (b : ScreenBuffer) (n : Nat) : ScreenBuffer :=
  let t := b.margin.top
  let bt := b.margin.bottom
  let n' := min n (bt + 1 - t)
  let pre := b.lines.take (t - 1)
  let region := (b.lines.drop (t - 1)).take (bt + 1 - t)
  let post := b.lines.drop bt
  let region' := List.replicate n' (blankLine b.size.columns) ++ region.take (bt + 1 - t - n')
  { b with lines := pre ++ region' ++ post }

/-- Modelled from the spec: absolute cursor placement with clamping
(spec §7: out-of-range parameters "clamp to screen/margin bounds";
§4.4 Origin mode: addressing is margin-relative and the cursor may never
leave the margin region).  A zero parameter is treated as 1 (spec §4.3).
Cursor movement clears the pending-wrap flag. -/
def moveCursorTo (b : ScreenBuffer) (r c : Nat) : ScreenBuffer :=
  let r1 := max r 1
  let c1 := max c 1
  let row :=
    if b.modeSet Mode.origin then min (b.margin.top + r1 - 1) b.margin.bottom
    else min r1 b.size.rows
  let col := min c1 b.size.columns
  { b with cursor := { b.cursor with position := ⟨row, col⟩, autoWrapPending := false } }

/-- Modelled from the spec: line feed; moves down one line, scrolling the
margin region when the cursor sits on the bottom margin (spec §4.4). -/
def linefeed (b : ScreenBuffer) : ScreenBuffer :=
  if b.cursor.position.row = b.margin.bottom then
    let b' := scrollUpN b 1
    { b' with cursor := { b'.cursor with autoWrapPending := false } }
  else
    { b with cursor := { b.cursor with
        position := ⟨min (b.cursor.position.row + 1) b.size.rows, b.cursor.position.column⟩,
        autoWrapPending := false } }

/-- Modelled from the spec: carriage return to column 1. -/
def carriageReturn (b : ScreenBuffer) : ScreenBuffer :=
  { b with cursor := { b.cursor with
      position := ⟨b.cursor.position.row, 1⟩, autoWrapPending := false } }

/-- Modelled from the spec: backspace, one column left, stopping at
column 1. -/
def backspace (b : ScreenBuffer) : ScreenBuffer :=
  { b with cursor := { b.cursor with
      position := ⟨b.cursor.position.row, max (b.cursor.position.column - 1) 1⟩,
      autoWrapPending := false } }

/-- The wrap to the next line performed when a pending wrap is consumed or
a wide character does not fit (spec §4.4 Append character: "move to next
line (scrolling within margins if at bottom) and clear pending flag"). -/
def wrapToNextLine (b : ScreenBuffer) : ScreenBuffer :=
  let b' :=
    if b.cursor.position.row = b.margin.bottom then scrollUpN b 1
    else { b with cursor := { b.cursor with
        position := ⟨min (b.cursor.position.row + 1) b.size.rows, b.cursor.position.column⟩ } }
  { b' with cursor := { b'.cursor with
      position := ⟨b'.cursor.position.row, 1⟩, autoWrapPending := false } }

/-- Apply a function to the element at a 0-based index, when present. -/
def modifyAt {α : Type} : List α → Nat → (α → α) → List α
  | [], _, _ => []
  | x :: xs, 0, f => f x :: xs
  | x :: xs, n+1, f => x :: modifyAt xs n f

/-- Write a cell list transform at the cursor's row. -/
def modifyCursorLine (b : ScreenBuffer) (f : List Cell → List Cell) : ScreenBuffer :=
  let newLines :=
    modifyAt b.lines (b.cursor.position.row - 1) (fun l => { l with cells := f l.cells })
  { b with lines := newLines }

/-- Stage 1 of the Append character algorithm (spec §4.4): "If
`autoWrapPending` and AutoWrap enabled, move to next line (scrolling within
margins if at bottom) and clear pending flag." -/
def wrapPending (b : ScreenBuffer) : ScreenBuffer :=
  if b.cursor.autoWrapPending ∧ b.modeSet Mode.autoWrap then wrapToNextLine b else b

/-- Stage 2 of the Append character algorithm (spec §4.4): "For width-2,
ensure both current and next column fit within right margin; if not, wrap
first" — clamping back instead when AutoWrap is off. -/
def fitWide (w : Nat) (b : ScreenBuffer) : ScreenBuffer :=
  if b.cursor.position.column + w - 1 ≤ b.size.columns then b
  else if b.modeSet Mode.autoWrap then wrapToNextLine b
  else { b with cursor := { b.cursor with
      position := ⟨b.cursor.position.row, max (b.size.columns + 1 - w) 1⟩ } }

/-- Stage 3 of the Append character algorithm (spec §4.4): write the cell
(and, for width 2, mark the trailing half) with the current rendition. -/
def writeChar (cp w : Nat) (b : ScreenBuffer) : ScreenBuffer :=
  if w = 2 then
    modifyCursorLine b (fun cs =>
      putRow2 cs (b.cursor.position.column - 1) cp b.cursor.graphicsRendition)
  else
    modifyCursorLine b (fun cs =>
      putRow cs (b.cursor.position.column - 1) (Cell.mk cp w b.cursor.graphicsRendition))

/-- Stage 4 of the Append character algorithm (spec §4.4): "Advance cursor
by width; if past right margin with AutoWrap, set `autoWrapPending` (do NOT
wrap until the next char arrives)". -/
def advanceCursor (w : Nat) (b : ScreenBuffer) : ScreenBuffer :=
  if b.cursor.position.column + w > b.size.columns then
    { b with cursor := { b.cursor with
        position := ⟨b.cursor.position.row, b.size.columns⟩,
        autoWrapPending := b.modeSet Mode.autoWrap } }
  else
    { b with cursor := { b.cursor with
        position := ⟨b.cursor.position.row, b.cursor.position.column + w⟩,
        autoWrapPending := false } }

/-- Modelled from the spec: the Append character algorithm of spec §4.4,
the composition of the four stages above. -/
def appendChar (b : ScreenBuffer) (cp : Nat) : ScreenBuffer :=
  advanceCursor (charWidth cp) (writeChar cp (charWidth cp) (fitWide (charWidth cp)
    (wrapPending b)))

/-- Modelled from the spec: `ClearScreen` blanks every visible cell; the
cursor does not move. -/
def clearScreen (b : ScreenBuffer) : ScreenBuffer :=
  { b with lines := List.replicate b.size.rows (blankLine b.size.columns) }

/-- Modelled from the spec: `ClearLine` blanks the cursor's line. -/
def clearLine (b : ScreenBuffer) : ScreenBuffer :=
  modifyCursorLine b (fun _ => List.replicate b.size.columns blankCell)

/-- Modelled from the spec: DECSTBM.  A zero bottom parameter means the
last row; parameters are clamped to the screen and the command is ignored
unless the region has at least two rows; the cursor is homed afterwards. -/
def setTopBottomMargin (b : ScreenBuffer) (t btm : Nat) : ScreenBuffer :=
  let bot := min (if btm = 0 then b.size.rows else btm) b.size.rows
  let top := max t 1
  if top < bot then
    moveCursorTo { b with margin := ⟨top, bot⟩ } 1 1
  else b

/-- Modelled from the spec: set or clear a mode flag in `enabledModes`.
Origin mode additionally homes the cursor (DECOM). -/
def setModeFlag (b : ScreenBuffer) (m : Mode) (enable : Bool) : ScreenBuffer :=
  let b' := { b with enabledModes :=
      if m ∈ b.enabledModes then (if enable then b.enabledModes else b.enabledModes.filter (fun x => x ≠ m))
      else (if enable then m :: b.enabledModes else b.enabledModes) }
  if m = Mode.origin then moveCursorTo b' 1 1 else b'

/-- Truncate or pad one row to the new column count, blanking a width-2
leader cut off from its trailing half (spec §4.4 Resize). -/
def resizeRow (cells : List Cell) (newCols : Nat) : List Cell :=
  if newCols ≤ cells.length then
    let cut := cells.take newCols
    match wfScan none cut with
    | some (some _) => cut.set (newCols - 1) blankCell
    | _ => cut
  else cells ++ List.replicate (newCols - cells.length) blankCell

/-- Modelled from the spec: resize one buffer (spec §4.4 Resize): pad or
truncate columns; on row shrink the top visible lines move into scrollback
on the primary buffer (dropped on the alternate); on row growth blank rows
are appended; the cursor is clamped and the margins reset to the full
screen. -/
def resizeBuf (b : ScreenBuffer) (ns : WindowSize) : ScreenBuffer :=
  let adjLine := fun (l : Line) => { l with cells := resizeRow l.cells ns.columns }
  let lines1 := b.lines.map adjLine
  let saved1 := b.savedLines.map adjLine
  let excess := b.size.rows - ns.rows
  let lines2 :=
    if ns.rows < b.size.rows then lines1.drop excess
    else lines1 ++ List.replicate (ns.rows - b.size.rows) (blankLine ns.columns)
  let saved2 :=
    if ns.rows < b.size.rows ∧ b.type = ScreenBufferType.primary then
      trimHistory b.maxHistoryLineCount (saved1 ++ lines1.take excess)
    else saved1
  { b with
    size := ns
    lines := lines2
    savedLines := saved2
    margin := ⟨1, ns.rows⟩
    cursor := { b.cursor with
      position := ⟨min (max (b.cursor.position.row - excess) 1) ns.rows,
                   min b.cursor.position.column ns.columns⟩,
      autoWrapPending := false } }

/-- `ScreenBuffer::historyLineCount` (delegated to by Screen.h line 155). -/
def historyLineCount (b : ScreenBuffer) : Nat := b.savedLines.length

/-- Origin-mode-relative cursor position (spec §3: the cursor coordinate is
"subject to origin mode"). -/
def cursorPosition (b : ScreenBuffer) : Coordinate :=
  if b.modeSet Mode.origin then
    ⟨b.cursor.position.row + 1 - b.margin.top, b.cursor.position.column⟩
  else b.cursor.position

/-- The absolute cursor position (`realCursorPosition`). -/
def realCursorPosition (b : ScreenBuffer) : Coordinate := b.cursor.position

end ScreenBuffer

/-- The Command variant set (spec §3); the subset of the ~100 commands that
the verified claims exercise. -/
inductive Command where
  | appendChar (cp : Nat)
  | linefeed
  | carriageReturn
  | backspace
  | moveCursorTo (row col : Nat)
  | clearScreen
  | clearLine
  | setGraphicsRendition (items : List SgrItem)
  | setMode (m : Mode) (enable : Bool)
  | setTopBottomMargin (top bottom : Nat)
  | scrollUp (n : Nat)
  | scrollDown (n : Nat)
  | deviceStatusReport
  | reportCursorPosition
  | sendDeviceAttributes
  | requestMode (m : Mode)
deriving DecidableEq, Repr

/-- Modelled from the spec: the state of the VT parser byte machine
(spec §4.1/§4.2), including the incremental UTF-8 decoder states.  The CSI
state accumulates the private marker, finished parameters and the current
parameter. -/
inductive ParserState where
  | ground
  | escape
  | csi (priv : Bool) (params : List Nat) (cur : Nat)
  | osc
  | oscEsc
  | utf8 (remaining acc : Nat)
deriving DecidableEq, Repr

/-- The Screen: both buffers, the active-buffer selector (`buffer_`,
Screen.h lines 458-460), the reply channel and the parser state.
`hasReplyCallback` models whether the `reply_` callback was set and
`replyData` the concatenated messages passed to it. -/
structure Screen where
  size_ : WindowSize
  primaryBuffer : ScreenBuffer
  alternateBuffer : ScreenBuffer
  bufferType : ScreenBufferType
  hasReplyCallback : Bool
  replyData : List String
  parserState : ParserState
deriving DecidableEq, Repr

namespace Screen

/-- The active buffer (`*buffer_`). -/
def currentBuffer (s : Screen) : ScreenBuffer :=
  match s.bufferType with
  | ScreenBufferType.primary => s.primaryBuffer
  | ScreenBufferType.alternate => s.alternateBuffer

/-- Apply a function to the active buffer. -/
def modifyBuffer (s : Screen) (f : ScreenBuffer → ScreenBuffer) : Screen :=
  match s.bufferType with
  | ScreenBufferType.primary => { s with primaryBuffer := f s.primaryBuffer }
  | ScreenBufferType.alternate => { s with alternateBuffer := f s.alternateBuffer }

/-- `Screen::isPrimaryScreen` (Screen.h line 348): `buffer_ == &primaryBuffer_`. -/
def isPrimaryScreen (s : Screen) : Bool := s.bufferType = ScreenBufferType.primary

/-- `Screen::isAlternateScreen` (Screen.h line 349): `buffer_ == &alternateBuffer_`. -/
def isAlternateScreen (s : Screen) : Bool := s.bufferType = ScreenBufferType.alternate

/-- `Screen::isModeEnabled` (Screen.h lines 354-360): `UseAlternateScreen`
is answered from the buffer pointer, every other mode from the active
buffer's `enabledModes_` set. -/
def isModeEnabled (s : Screen) (m : Mode) : Bool :=
  if m = Mode.useAlternateScreen then s.isAlternateScreen
  else s.currentBuffer.modeSet m

/-- `Screen::contains` (Screen.h lines 293-297): tests whether a coordinate
is within the visible screen area. -/
def contains (s : Screen) (coord : Coordinate) : Bool :=
  1 ≤ coord.row ∧ coord.row ≤ s.size_.rows
    ∧ 1 ≤ coord.column ∧ coord.column ≤ s.size_.columns

/-- `Screen::historyLineCount` (Screen.h line 155). -/
def historyLineCount (s : Screen) : Nat := s.currentBuffer.historyLineCount

/-- `Screen::setTabWidth` (Screen.h lines 368-373): sets the tab width of
both the primary and the alternate buffer. -/
def setTabWidth (s : Screen) (value : Nat) : Screen :=
  { s with
    primaryBuffer := { s.primaryBuffer with tabWidth := value }
    alternateBuffer := { s.alternateBuffer with tabWidth := value } }

/-- `Screen::reply` (Screen.h lines 423-427): the message reaches the
callback only when one was installed; otherwise it is discarded. -/
def reply (s : Screen) (message : String) : Screen :=
  if s.hasReplyCallback then { s with replyData := s.replyData ++ [message] } else s

/-- The mode number used in DECRQM replies. -/
def modeNumber (m : Mode) : Nat :=
  match m with
  | Mode.autoWrap => 7
  | Mode.origin => 6
  | Mode.useAlternateScreen => 47
  | Mode.visibleCursor => 25

/-- Modelled from the spec: the reply message a query command produces
(spec §4.4 Reply, §6 output protocol). -/
def formatReply (s : Screen) (c : Command) : String :=
  match c with
  | Command.deviceStatusReport => "\x1b[0n"
  | Command.reportCursorPosition =>
      let p := s.currentBuffer.cursorPosition
      "\x1b[" ++ toString p.row ++ ";" ++ toString p.column ++ "R"
  | Command.sendDeviceAttributes => "\x1b[?64;1;6;9;15;22c"
  | Command.requestMode m =>
      "\x1b[?" ++ toString (modeNumber m) ++ ";"
        ++ (if s.isModeEnabled m then "1" else "2") ++ "$y"
  | _ => ""

/-- Whether a command is one of the modelled reply-producing queries. -/
def isQuery (c : Command) : Bool :=
  match c with
  | Command.deviceStatusReport => true
  | Command.reportCursorPosition => true
  | Command.sendDeviceAttributes => true
  | Command.requestMode _ => true
  | _ => false

/-- Modelled from the spec: the command dispatcher
(`Screen::operator()(...)`, Screen.h lines 188-265; semantics from
spec §4.4).  `SetMode UseAlternateScreen` switches the active buffer
selector (`setBuffer`); queries go through `reply`; everything else acts on
the active buffer. -/
def applyCommand (s : Screen) (c : Command) : Screen :=
  match c with
  | Command.appendChar cp => s.modifyBuffer (fun b => b.appendChar cp)
  | Command.linefeed => s.modifyBuffer ScreenBuffer.linefeed
  | Command.carriageReturn => s.modifyBuffer ScreenBuffer.carriageReturn
  | Command.backspace => s.modifyBuffer ScreenBuffer.backspace
  | Command.moveCursorTo r col => s.modifyBuffer (fun b => b.moveCursorTo r col)
  | Command.clearScreen => s.modifyBuffer ScreenBuffer.clearScreen
  | Command.clearLine => s.modifyBuffer ScreenBuffer.clearLine
  | Command.setGraphicsRendition items =>
      s.modifyBuffer (fun b => { b with cursor := { b.cursor with
        graphicsRendition := items.foldl applySgr b.cursor.graphicsRendition } })
  | Command.setMode m enable =>
      if m = Mode.useAlternateScreen then
        { s with bufferType :=
            if enable then ScreenBufferType.alternate else ScreenBufferType.primary }
      else s.modifyBuffer (fun b => b.setModeFlag m enable)
  | Command.setTopBottomMargin t btm => s.modifyBuffer (fun b => b.setTopBottomMargin t btm)
  | Command.scrollUp n => s.modifyBuffer (fun b => b.scrollUpN n)
  | Command.scrollDown n => s.modifyBuffer (fun b => b.scrollDownN n)
  | Command.deviceStatusReport => s.reply (s.formatReply Command.deviceStatusReport)
  | Command.reportCursorPosition => s.reply (s.formatReply Command.reportCursorPosition)
  | Command.sendDeviceAttributes => s.reply (s.formatReply Command.sendDeviceAttributes)
  | Command.requestMode m => s.reply (s.formatReply (Command.requestMode m))

/-- Modelled from the spec: dispatch of a CSI final byte given the private
marker and the collected parameters (spec §6 canonical dispatch table;
unknown sequences are dropped, spec §4.3). -/
def dispatchCsi (s : Screen) (priv : Bool) (params : List Nat) (final : Nat) : Screen :=
  let p := fun (i def1 : Nat) => match params.get? i with
    | some 0 => def1
    | some v => v
    | none => def1
  if priv then
    match final with
    | 0x68 =>
        match params.get? 0 with
        | some 7 => s.applyCommand (Command.setMode Mode.autoWrap true)
        | some 6 => s.applyCommand (Command.setMode Mode.origin true)
        | some 25 => s.applyCommand (Command.setMode Mode.visibleCursor true)
        | some 47 => s.applyCommand (Command.setMode Mode.useAlternateScreen true)
        | some 1049 => s.applyCommand (Command.setMode Mode.useAlternateScreen true)
        | _ => s
    | 0x6C =>
        match params.get? 0 with
        | some 7 => s.applyCommand (Command.setMode Mode.autoWrap false)
        | some 6 => s.applyCommand (Command.setMode Mode.origin false)
        | some 25 => s.applyCommand (Command.setMode Mode.visibleCursor false)
        | some 47 => s.applyCommand (Command.setMode Mode.useAlternateScreen false)
        | some 1049 => s.applyCommand (Command.setMode Mode.useAlternateScreen false)
        | _ => s
    | _ => s
  else
    match final with
    | 0x48 => s.applyCommand (Command.moveCursorTo (p 0 1) (p 1 1))
    | 0x66 => s.applyCommand (Command.moveCursorTo (p 0 1) (p 1 1))
    | 0x4A => if (params.getD 0 0) = 2 then s.applyCommand Command.clearScreen else s
    | 0x4B => if (params.getD 0 0) = 2 then s.applyCommand Command.clearLine else s
    | 0x72 => s.applyCommand (Command.setTopBottomMargin (params.getD 0 0) (params.getD 1 0))
    | 0x53 => s.applyCommand (Command.scrollUp (p 0 1))
    | 0x54 => s.applyCommand (Command.scrollDown (p 0 1))
    | 0x6E =>
        if (params.getD 0 0) = 6 then s.applyCommand Command.reportCursorPosition
        else if (params.getD 0 0) = 5 then s.applyCommand Command.deviceStatusReport
        else s
    | 0x63 => s.applyCommand Command.sendDeviceAttributes
    | _ => s

/-- Modelled from the spec: one step of the byte machine in the Ground
state (spec §4.1/§4.2): C0 controls execute directly, ESC enters the escape
state, printable ASCII appends, high bytes enter the UTF-8 decoder, and
stray continuation or overlong lead bytes substitute U+FFFD (spec §7). -/
def groundByte (s : Screen) (byte : Nat) : Screen :=
  if byte = 0x1B then { s with parserState := ParserState.escape }
  else if byte = 0x0A then s.applyCommand Command.linefeed
  else if byte = 0x0D then s.applyCommand Command.carriageReturn
  else if byte = 0x08 then s.applyCommand Command.backspace
  else if byte < 0x20 ∨ byte = 0x7F then s
  else if byte ≤ 0x7E then s.applyCommand (Command.appendChar byte)
  else if 0xC0 ≤ byte ∧ byte ≤ 0xDF then
    { s with parserState := ParserState.utf8 1 (byte - 0xC0) }
  else if 0xE0 ≤ byte ∧ byte ≤ 0xEF then
    { s with parserState := ParserState.utf8 2 (byte - 0xE0) }
  else if 0xF0 ≤ byte ∧ byte ≤ 0xF7 then
    { s with parserState := ParserState.utf8 3 (byte - 0xF0) }
  else s.applyCommand (Command.appendChar 0xFFFD)

/-- Modelled from the spec: `Screen::write` for one byte (Screen.h
line 158; machine per spec §4.1/§4.2).  Invalid UTF-8 emits U+FFFD and
re-feeds the offending byte from Ground (spec §4.1); the parser never
surfaces an error (spec §4.2). -/
def writeByte (s : Screen) (byte : Nat) : Screen :=
  match s.parserState with
  | ParserState.ground => groundByte s byte
  | ParserState.escape =>
      if byte = 0x5B then { s with parserState := ParserState.csi false [] 0 }
      else if byte = 0x5D then { s with parserState := ParserState.osc }
      else { s with parserState := ParserState.ground }
  | ParserState.csi priv params cur =>
      if byte = 0x3F then { s with parserState := ParserState.csi true params cur }
      else if 0x30 ≤ byte ∧ byte ≤ 0x39 then
        { s with parserState := ParserState.csi priv params (cur * 10 + (byte - 0x30)) }
      else if byte = 0x3B then
        { s with parserState := ParserState.csi priv (params ++ [cur]) 0 }
      else if 0x40 ≤ byte ∧ byte ≤ 0x7E then
        dispatchCsi { s with parserState := ParserState.ground } priv (params ++ [cur]) byte
      else { s with parserState := ParserState.ground }
  | ParserState.osc =>
      if byte = 0x07 then { s with parserState := ParserState.ground }
      else if byte = 0x1B then { s with parserState := ParserState.oscEsc }
      else s
  | ParserState.oscEsc => { s with parserState := ParserState.ground }
  | ParserState.utf8 remaining acc =>
      if 0x80 ≤ byte ∧ byte ≤ 0xBF then
        let acc' := acc * 64 + (byte - 0x80)
        match remaining with
        | 0 => groundByte { s with parserState := ParserState.ground } byte
        | 1 => applyCommand { s with parserState := ParserState.ground } (Command.appendChar acc')
        | r + 1 => { s with parserState := ParserState.utf8 r acc' }
      else
        groundByte (applyCommand { s with parserState := ParserState.ground }
          (Command.appendChar 0xFFFD)) byte

/-- `Screen::write(char const*, size_t)` (Screen.h lines 157-158),
modelled from the spec as the per-byte fold of the byte machine. -/
def write (s : Screen) (data : List Nat) : Screen := data.foldl writeByte s

/-- `Screen::resize` (Screen.h line 273), modelled from spec §4.4 Resize;
both buffers are resized; degenerate sizes are rejected. -/
def resize (s : Screen) (ns : WindowSize) : Screen :=
  if 1 ≤ ns.rows ∧ 1 ≤ ns.columns then
    { s with
      size_ := ns
      primaryBuffer := s.primaryBuffer.resizeBuf ns
      alternateBuffer := s.alternateBuffer.resizeBuf ns }
  else s

/-- `Screen::setMaxHistoryLineCount` (Screen.h line 154), modelled from the
spec: install the bound on both buffers and evict the oldest lines beyond
it (spec §3 invariants, §5 memory policy). -/
def setMaxHistoryLineCount (s : Screen) (n : Option Nat) : Screen :=
  let f := fun (b : ScreenBuffer) =>
    { b with
      maxHistoryLineCount := n
      savedLines := ScreenBuffer.trimHistory n b.savedLines }
  { s with primaryBuffer := f s.primaryBuffer, alternateBuffer := f s.alternateBuffer }

/-- A fresh buffer of the given geometry. -/
def initBuffer (t : ScreenBufferType) (sz : WindowSize) (maxHist : Option Nat) : ScreenBuffer :=
  { type := t
    size := sz
    savedLines := []
    lines := List.replicate sz.rows (blankLine sz.columns)
    cursor := ⟨⟨1, 1⟩, defaultAttributes, false⟩
    savedCursor := ⟨⟨1, 1⟩, defaultAttributes, false⟩
    margin := ⟨1, sz.rows⟩
    enabledModes := [Mode.autoWrap, Mode.visibleCursor]
    tabWidth := 8
    maxHistoryLineCount := maxHist }

/-- Screen construction (Screen.h lines 84-142): both buffers blank, the
primary buffer active, AutoWrap on by default. -/
def initScreen (sz : WindowSize) (maxHist : Option Nat) (hasReply : Bool) : Screen :=
  { size_ := sz
    primaryBuffer := initBuffer ScreenBufferType.primary sz maxHist
    alternateBuffer := initBuffer ScreenBufferType.alternate sz maxHist
    bufferType := ScreenBufferType.primary
    hasReplyCallback := hasReply
    replyData := []
    parserState := ParserState.ground }

end Screen

/-- The visible line window at a given scroll offset: the last `offset`
history lines (clamped to the history length) followed by the top of the
visible grid, `rows` lines in all (spec §2 render flow). -/
def visibleLines (b : ScreenBuffer) (offset : Nat) : List Line :=
  let off := min offset b.savedLines.length
  ((b.savedLines.drop (b.savedLines.length - off)) ++ b.lines).take b.size.rows

/-- The column walk of one rendered line, 1-based columns from `c`. -/
def walkCols (r : Nat) : Nat → List Cell → List (Nat × Nat × Cell)
  | _, [] => []
  | c, cell :: rest => (r, c, cell) :: walkCols r (c + 1) rest

/-- The row-major render walk, 1-based rows from `r`. -/
def walkRows : Nat → List Line → List (Nat × Nat × Cell)
  | _, [] => []
  | r, l :: rest => walkCols r 1 l.cells ++ walkRows (r + 1) rest

/-- `Screen::render` (Screen.h lines 167-168), modelled from the spec:
"invoke `cb(row, col, cell)` once per visible cell in row-major order"
(spec §4.4); the result lists the callback invocations in order. -/
def Screen.render (s : Screen) (scrollOffset : Nat) : List (Nat × Nat × Cell) :=
  walkRows 1 (visibleLines s.currentBuffer scrollOffset)

/-- The character a cell decodes to in text rendering. -/
def cellChar (c : Cell) : Char := Char.ofNat c.codepoint

/-- `ScreenBuffer::renderText`, modelled from the spec: the full screen as
text, each line terminated by LF (Screen.h lines 173-174). -/
def ScreenBuffer.renderText (b : ScreenBuffer) : String :=
  String.join (b.lines.map (fun l => String.mk (l.cells.map cellChar) ++ "\n"))

/-- `Screen::renderText` (Screen.h line 174): delegates to the active
buffer. -/
def Screen.renderText (s : Screen) : String := s.currentBuffer.renderText

/-- The commands `screenshot` emits for one row of cells: each cell's
rendition is re-established and its character appended; trailing halves of
wide characters are skipped, being re-created by their leader. -/
def emitCells : List Cell → List Command
  | [] => []
  | c :: rest =>
      if c.width = 0 then emitCells rest
      else Command.setGraphicsRendition (sgrOfAttrs c.attributes)
        :: Command.appendChar c.codepoint :: emitCells rest

/-- The per-row screenshot emission: home to the row start, then the row's
cells. -/
def emitRows : Nat → List Line → List Command
  | _, [] => []
  | r, l :: rest => (Command.moveCursorTo r 1 :: emitCells l.cells) ++ emitRows (r + 1) rest

/-- `Screen::screenshot` (Screen.h lines 176-182), modelled from the spec
at the Command level (the header's own doc: "returns necessary commands
needed to draw the current screen state, including initial clear screen"):
clear, repaint every visible cell of the active buffer, then restore the
cursor position. -/
def Screen.screenshot (s : Screen) : List Command :=
  Command.clearScreen :: emitRows 1 s.currentBuffer.lines
    ++ [Command.moveCursorTo s.currentBuffer.cursor.position.row
          s.currentBuffer.cursor.position.column]

/-- Replay a command list, `Screen::write(Command)` iterated
(Screen.h line 160). -/
def Screen.writeCommands (s : Screen) (cs : List Command) : Screen :=
  cs.foldl Screen.applyCommand s

/-- The cursor-independent structural invariants of one buffer
(spec §3 Invariants). -/
structure GridInv (b : ScreenBuffer) : Prop where
  rowsPos : 1 ≤ b.size.rows
  colsPos : 1 ≤ b.size.columns
  linesLen : b.lines.length = b.size.rows
  linesWF : ∀ l ∈ b.lines, l.cells.length = b.size.columns ∧ wfRow l.cells
  savedWF : ∀ l ∈ b.savedLines, l.cells.length = b.size.columns ∧ wfRow l.cells
  marginTopPos : 1 ≤ b.margin.top
  marginOrder : b.margin.top ≤ b.margin.bottom
  marginBottomLe : b.margin.bottom ≤ b.size.rows
  history : ∀ m, b.maxHistoryLineCount = some m → b.savedLines.length ≤ m

/-- The structural invariants of one buffer, cursor included
(spec §3 Invariants). -/
structure BufInv (b : ScreenBuffer) extends GridInv b : Prop where
  cursorRowPos : 1 ≤ b.cursor.position.row
  cursorRowLe : b.cursor.position.row ≤ b.size.rows
  cursorColPos : 1 ≤ b.cursor.position.column
  cursorColLe : b.cursor.position.column ≤ b.size.columns
  originRow : b.modeSet Mode.origin = true →
    b.margin.top ≤ b.cursor.position.row ∧ b.cursor.position.row ≤ b.margin.bottom

/-- The structural invariants of the whole screen. -/
structure ScreenInv (s : Screen) : Prop where
  prim : BufInv s.primaryBuffer
  alt : BufInv s.alternateBuffer
  primType : s.primaryBuffer.type = ScreenBufferType.primary
  altType : s.alternateBuffer.type = ScreenBufferType.alternate
  primSize : s.primaryBuffer.size = s.size_
  altSize : s.alternateBuffer.size = s.size_

/-- The states reachable from a freshly constructed screen by the modelled
public operations: byte writes, direct command writes, resize,
`setMaxHistoryLineCount` and `setTabWidth`. -/
inductive Reachable : Screen → Prop where
  | init (sz : WindowSize) (maxHist : Option Nat) (hasReply : Bool)
      (hr : 1 ≤ sz.rows) (hc : 1 ≤ sz.columns) :
      Reachable (Screen.initScreen sz maxHist hasReply)
  | write {s : Screen} (byte : Nat) : Reachable s → Reachable (s.writeByte byte)
  | command {s : Screen} (c : Command) : Reachable s → Reachable (s.applyCommand c)
  | resize {s : Screen} (ns : WindowSize) : Reachable s → Reachable (s.resize ns)
  | setMaxHistory {s : Screen} (n : Option Nat) :
      Reachable s → Reachable (s.setMaxHistoryLineCount n)
  | setTabW {s : Screen} (n : Nat) : Reachable s → Reachable (s.setTabWidth n)

/-! ### Scanner lemmas -/

theorem charWidth_pos (cp : Nat) : 1 ≤ charWidth cp := by
  unfold charWidth; split <;> omega

theorem charWidth_blank : charWidth 0x20 = 1 := by decide

theorem wfScan_append (xs ys : List Cell) :
    ∀ st, wfScan st (xs ++ ys) = (wfScan st xs).bind (fun st2 => wfScan st2 ys) := by
  induction xs with
  | nil => intro st; simp [wfScan]
  | cons x xs ih =>
    intro st
    match st with
    | none =>
      simp only [List.cons_append, wfScan]
      by_cases h1 : x.width = 1 ∧ charWidth x.codepoint = 1
      · simp only [if_pos h1]; exact ih none
      · by_cases h2 : x.width = 2 ∧ charWidth x.codepoint = 2
        · simp only [if_neg h1, if_pos h2]; exact ih (some x.attributes)
        · simp [if_neg h1, if_neg h2]
    | some a =>
      simp only [List.cons_append, wfScan]
      by_cases h : x = trailingCell a
      · simp only [if_pos h]; exact ih none
      · simp [if_neg h]

theorem wfScan_cons_narrow {x : Cell} (h1 : x.width = 1) (h2 : charWidth x.codepoint = 1)
    (xs : List Cell) : wfScan none (x :: xs) = wfScan none xs := by
  simp [wfScan, h1, h2]

theorem wfScan_cons_trailer (a : GraphicsAttributes) (xs : List Cell) :
    wfScan (some a) (trailingCell a :: xs) = wfScan none xs := by
  simp [wfScan]

theorem wfScan_blank (xs : List Cell) : wfScan none (blankCell :: xs) = wfScan none xs := by
  apply wfScan_cons_narrow <;> simp [blankCell, charWidth_blank]

theorem wfRow_replicate_blank (n : Nat) : wfRow (List.replicate n blankCell) := by
  induction n with
  | zero => rfl
  | succ n ih =>
    show wfScan none (blankCell :: List.replicate n blankCell) = some none
    rw [wfScan_blank]; exact ih

/-- Inversion: a scan expecting a trailing half succeeds only when the
trailing half comes next. -/
theorem wfScan_some_inv {a : GraphicsAttributes} {xs : List Cell}
    (h : wfScan (some a) xs = some none) :
    ∃ ys, xs = trailingCell a :: ys ∧ wfScan none ys = some none := by
  match xs with
  | [] => simp [wfScan] at h
  | y :: ys =>
    by_cases hy : y = trailingCell a
    · exact ⟨ys, by rw [hy], by simpa [wfScan, hy] using h⟩
    · simp [wfScan, hy] at h

/-- Inversion for a scan from the boundary state: the head is either a
proper narrow cell or a proper leader followed by its trailing half. -/
theorem wfScan_none_cons_inv {x : Cell} {xs : List Cell}
    (h : wfScan none (x :: xs) = some none) :
    (x.width = 1 ∧ charWidth x.codepoint = 1 ∧ wfScan none xs = some none) ∨
    (x.width = 2 ∧ charWidth x.codepoint = 2 ∧
      ∃ ys, xs = trailingCell x.attributes :: ys ∧ wfScan none ys = some none) := by
  by_cases h1 : x.width = 1 ∧ charWidth x.codepoint = 1
  · left; exact ⟨h1.1, h1.2, by simpa [wfScan, h1] using h⟩
  · by_cases h2 : x.width = 2 ∧ charWidth x.codepoint = 2
    · right
      refine ⟨h2.1, h2.2, wfScan_some_inv ?_⟩
      simpa [wfScan, h1, h2] using h
    · simp [wfScan, h1, h2] at h

/-- A list scanning from the boundary state to a pending trailing half
ends in the leader that opened it. -/
theorem wfScan_ends_leader :
    ∀ (P : List Cell) (st : Option GraphicsAttributes) (a : GraphicsAttributes),
      wfScan st P = some (some a) →
      (P = [] ∧ st = some a) ∨
      (∃ Q ldr, P = Q ++ [ldr] ∧ ldr.width = 2 ∧ charWidth ldr.codepoint = 2 ∧
        ldr.attributes = a ∧ wfScan st Q = some none) := by
  intro P
  induction P with
  | nil =>
    intro st a h
    left
    exact ⟨rfl, by simpa [wfScan] using h⟩
  | cons x xs ih =>
    intro st a h
    right
    match st with
    | none =>
      by_cases h1 : x.width = 1 ∧ charWidth x.codepoint = 1
      · have hx : wfScan none xs = some (some a) := by simpa [wfScan, h1] using h
        rcases ih none a hx with ⟨hnil, hst⟩ | ⟨Q, ldr, hQ, hw, hcw, ha, hscan⟩
        · simp at hst
        · exact ⟨x :: Q, ldr, by simp [hQ], hw, hcw, ha, by
            rw [wfScan_cons_narrow h1.1 h1.2]; exact hscan⟩
      · by_cases h2 : x.width = 2 ∧ charWidth x.codepoint = 2
        · have hx : wfScan (some x.attributes) xs = some (some a) := by
            simpa [wfScan, h1, h2] using h
          rcases ih (some x.attributes) a hx with ⟨hnil, hst⟩ | ⟨Q, ldr, hQ, hw, hcw, ha, hscan⟩
          · refine ⟨[], x, by simp [hnil], h2.1, h2.2, ?_, by simp [wfScan]⟩
            exact Option.some.inj hst
          · refine ⟨x :: Q, ldr, by simp [hQ], hw, hcw, ha, ?_⟩
            simpa [wfScan, h1, h2] using hscan
        · simp [wfScan, h1, h2] at h
    | some b =>
      by_cases hy : x = trailingCell b
      · have hx : wfScan none xs = some (some a) := by simpa [wfScan, hy] using h
        rcases ih none a hx with ⟨hnil, hst⟩ | ⟨Q, ldr, hQ, hw, hcw, ha, hscan⟩
        · simp at hst
        · exact ⟨x :: Q, ldr, by simp [hQ], hw, hcw, ha, by
            rw [hy, wfScan_cons_trailer]; exact hscan⟩
      · simp [wfScan, hy] at h

/-! ### Row surgery lemmas -/

theorem blankHead_length (xs : List Cell) : (blankHead xs).length = xs.length := by
  cases xs <;> simp [blankHead]

theorem overHead_length (xs : List Cell) (cell : Cell) :
    (overHead xs cell).length = xs.length := by
  cases xs <;> simp [overHead]

theorem putRow_length (cells : List Cell) :
    ∀ (c : Nat) (cell : Cell), (putRow cells c cell).length = cells.length := by
  induction cells with
  | nil => intro c cell; rfl
  | cons x xs ih =>
    intro c cell
    match c with
    | 0 =>
      simp only [putRow]
      split
      · simp [blankHead_length]
      · simp
    | 1 =>
      simp only [putRow]
      split
      · simp [overHead_length]
      · simp [ih]
    | c + 2 => simp only [putRow, List.length_cons, ih]

theorem putRow2_length (cells : List Cell) :
    ∀ (c cp : Nat) (a : GraphicsAttributes),
      (putRow2 cells c cp a).length = cells.length := by
  induction cells with
  | nil => intro c cp a; rfl
  | cons x xs ih =>
    intro c cp a
    match x, xs, c with
    | x, [], 0 => rfl
    | x, y :: ys, 0 =>
      simp only [putRow2]
      split
      · simp [blankHead_length]
      · simp
    | x, xs, 1 =>
      simp only [putRow2]
      split
      · simp [ih]
      · simp [ih]
    | x, xs, c + 2 => simp only [putRow2, List.length_cons, ih]

theorem wfScan_cons_leader {x : Cell} (h1 : x.width = 2) (h2 : charWidth x.codepoint = 2)
    (xs : List Cell) : wfScan none (x :: xs) = wfScan (some x.attributes) xs := by
  simp [wfScan, h1, h2]

theorem trailingCell_width (a : GraphicsAttributes) : (trailingCell a).width = 0 := rfl

/-- Writing a proper narrow cell anywhere in a well-formed row keeps it
well-formed. -/
theorem putRow_wf {cell : Cell} (hw : cell.width = 1) (hcw : charWidth cell.codepoint = 1) :
    ∀ (cells : List Cell) (st : Option GraphicsAttributes) (c : Nat),
      wfScan st cells = some none → (∀ a, st = some a → 1 ≤ c) →
      wfScan st (putRow cells c cell) = some none := by
  intro cells
  induction cells with
  | nil => intro st c h _; exact h
  | cons x xs ih =>
    intro st c h hguard
    match c with
    | 0 =>
      match st with
      | some a => exact absurd (hguard a rfl) (by omega)
      | none =>
        rcases wfScan_none_cons_inv h with ⟨h1, h2, h3⟩ | ⟨h1, h2, ys, hys, h3⟩
        · have : ¬ x.width = 2 := by omega
          simp only [putRow, if_neg this]
          rw [wfScan_cons_narrow hw hcw]; exact h3
        · simp only [putRow, if_pos h1, hys, blankHead]
          rw [wfScan_cons_narrow hw hcw, wfScan_blank]; exact h3
    | 1 =>
      match st with
      | none =>
        rcases wfScan_none_cons_inv h with ⟨h1, h2, h3⟩ | ⟨h1, h2, ys, hys, h3⟩
        · have : ¬ x.width = 2 := by omega
          simp only [putRow, if_neg this]
          rw [wfScan_cons_narrow h1 h2]
          exact ih none 0 h3 (by simp)
        · simp only [putRow, if_pos h1, hys, overHead]
          rw [wfScan_cons_narrow (by rfl) charWidth_blank, wfScan_cons_narrow hw hcw]
          exact h3
      | some a =>
        rcases wfScan_some_inv h with ⟨ys, hys, h3⟩
        have hx : x = trailingCell a := (List.cons.injEq _ _ _ _ ▸ hys).1
        have hxs : xs = ys := (List.cons.injEq _ _ _ _ ▸ hys).2
        have : ¬ x.width = 2 := by rw [hx]; simp [trailingCell]
        simp only [putRow, if_neg this]
        rw [hx, wfScan_cons_trailer]
        exact ih none 0 (hxs ▸ h3) (by simp)
    | c + 2 =>
      simp only [putRow]
      match st with
      | none =>
        rcases wfScan_none_cons_inv h with ⟨h1, h2, h3⟩ | ⟨h1, h2, ys, hys, h3⟩
        · rw [wfScan_cons_narrow h1 h2]
          exact ih none (c + 1) h3 (by simp)
        · rw [wfScan_cons_leader h1 h2]
          refine ih (some x.attributes) (c + 1) ?_ (by omega)
          rw [hys, wfScan_cons_trailer]; exact h3
      | some a =>
        rcases wfScan_some_inv h with ⟨ys, hys, h3⟩
        have hx : x = trailingCell a := (List.cons.injEq _ _ _ _ ▸ hys).1
        have hxs : xs = ys := (List.cons.injEq _ _ _ _ ▸ hys).2
        rw [hx, wfScan_cons_trailer]
        exact ih none (c + 1) (hxs ▸ h3) (by simp)

/-- Writing a proper wide pair that fits in the row keeps a well-formed row
well-formed. -/
theorem putRow2_wf {cp : Nat} (hcw : charWidth cp = 2) (a : GraphicsAttributes) :
    ∀ (cells : List Cell) (st : Option GraphicsAttributes) (c : Nat),
      wfScan st cells = some none → (∀ b, st = some b → 1 ≤ c) →
      c + 2 ≤ cells.length →
      wfScan st (putRow2 cells c cp a) = some none := by
  intro cells
  induction cells with
  | nil => intro st c _ _ hfit; simp at hfit
  | cons x xs ih =>
    intro st c h hguard hfit
    match c with
    | 0 =>
      match st with
      | some b => exact absurd (hguard b rfl) (by omega)
      | none =>
        match xs with
        | [] => simp at hfit
        | y :: ys =>
          rcases wfScan_none_cons_inv h with ⟨h1, h2, h3⟩ | ⟨h1, h2, zs, hzs, h3⟩
          · -- x narrow; the pair overwrites x and y
            rcases wfScan_none_cons_inv h3 with ⟨g1, g2, g3⟩ | ⟨g1, g2, ws, hws, g3⟩
            · have : ¬ y.width = 2 := by omega
              simp only [putRow2, if_neg this]
              rw [wfScan_cons_leader (by rfl) hcw, wfScan_cons_trailer]
              exact g3
            · simp only [putRow2, if_pos g1, hws, blankHead]
              rw [wfScan_cons_leader (by rfl) hcw, wfScan_cons_trailer, wfScan_blank]
              exact g3
          · -- x leader, y its trailing half
            have hy : y = trailingCell x.attributes := (List.cons.injEq _ _ _ _ ▸ hzs).1
            have hys : ys = zs := (List.cons.injEq _ _ _ _ ▸ hzs).2
            have : ¬ y.width = 2 := by rw [hy]; simp [trailingCell]
            simp only [putRow2, if_neg this]
            rw [wfScan_cons_leader (by rfl) hcw, wfScan_cons_trailer]
            exact hys ▸ h3
    | 1 =>
      match st with
      | none =>
        rcases wfScan_none_cons_inv h with ⟨h1, h2, h3⟩ | ⟨h1, h2, zs, hzs, h3⟩
        · have : ¬ x.width = 2 := by omega
          simp only [putRow2, if_neg this]
          rw [wfScan_cons_narrow h1 h2]
          exact ih none 0 h3 (by simp) (by simpa using hfit)
        · -- x leader: target is its trailing half; blank the leader and
          -- write the pair over the trailer and the next cell
          simp only [putRow2, if_pos h1, hzs]
          match zs, h3 with
          | [], h3 =>
            exfalso
            rw [hzs] at hfit
            simp at hfit
          | y :: ys, h3 =>
            rcases wfScan_none_cons_inv h3 with ⟨g1, g2, g3⟩ | ⟨g1, g2, ws, hws, g3⟩
            · have hy2 : ¬ y.width = 2 := by omega
              simp only [putRow2, if_neg hy2]
              rw [wfScan_blank, wfScan_cons_leader (by rfl) hcw, wfScan_cons_trailer]
              exact g3
            · simp only [putRow2, if_pos g1, hws, blankHead]
              rw [wfScan_blank, wfScan_cons_leader (by rfl) hcw]
              show wfScan (some a) (trailingCell a :: blankCell :: ws) = some none
              rw [wfScan_cons_trailer, wfScan_blank]
              exact g3
      | some b =>
        rcases wfScan_some_inv h with ⟨ys, hys, h3⟩
        have hx : x = trailingCell b := (List.cons.injEq _ _ _ _ ▸ hys).1
        have hxs : xs = ys := (List.cons.injEq _ _ _ _ ▸ hys).2
        have : ¬ x.width = 2 := by rw [hx]; simp [trailingCell]
        simp only [putRow2, if_neg this]
        rw [hx, wfScan_cons_trailer]
        exact ih none 0 (hxs ▸ h3) (by simp) (by simpa using hfit)
    | c + 2 =>
      simp only [putRow2]
      match st with
      | none =>
        rcases wfScan_none_cons_inv h with ⟨h1, h2, h3⟩ | ⟨h1, h2, ys, hys, h3⟩
        · rw [wfScan_cons_narrow h1 h2]
          exact ih none (c + 1) h3 (by simp) (by simpa using hfit)
        · rw [wfScan_cons_leader h1 h2]
          refine ih (some x.attributes) (c + 1) ?_ (by omega) (by simpa using hfit)
          rw [hys, wfScan_cons_trailer]; exact h3
      | some b =>
        rcases wfScan_some_inv h with ⟨ys, hys, h3⟩
        have hx : x = trailingCell b := (List.cons.injEq _ _ _ _ ▸ hys).1
        have hxs : xs = ys := (List.cons.injEq _ _ _ _ ▸ hys).2
        rw [hx, wfScan_cons_trailer]
        exact ih none (c + 1) (hxs ▸ h3) (by simp) (by simpa using hfit)

/-- A wide write that cannot even start (one-cell row) is a no-op. -/
theorem putRow2_short (x : Cell) (cp : Nat) (a : GraphicsAttributes) :
    putRow2 [x] 0 cp a = [x] := rfl

/-- The head of a well-formed prefix is never an unmatched leader, so a
write beyond it passes it through. -/
theorem wfScan_single_not_wide {x : Cell} {st : Option GraphicsAttributes}
    (h : wfScan st [x] = some none) : ¬ x.width = 2 := by
  match st with
  | none =>
    rcases wfScan_none_cons_inv h with ⟨h1, _, _⟩ | ⟨_, _, ys, hys, _⟩
    · omega
    · exact absurd hys (by simp)
  | some a =>
    rcases wfScan_some_inv h with ⟨ys, hys, _⟩
    have hx : x = trailingCell a := (List.cons.injEq _ _ _ _ ▸ hys).1
    rw [hx]; simp [trailingCell]

/-- Writing past a well-formed prefix leaves the prefix unchanged. -/
theorem putRow_append (R : List Cell) (cell : Cell) :
    ∀ (P : List Cell) (st : Option GraphicsAttributes), wfScan st P = some none →
      putRow (P ++ R) P.length cell = P ++ putRow R 0 cell := by
  intro P
  induction P with
  | nil => intro st _; rfl
  | cons x P' ih =>
    intro st h
    match P' with
    | [] =>
      have hxw : ¬ x.width = 2 := wfScan_single_not_wide h
      show putRow (x :: R) 1 cell = x :: putRow R 0 cell
      simp only [putRow, if_neg hxw]
    | z :: Q =>
      show putRow (x :: ((z :: Q) ++ R)) (Q.length + 2) cell
        = x :: ((z :: Q) ++ putRow R 0 cell)
      simp only [putRow]
      congr 1
      have hlen : (z :: Q).length = Q.length + 1 := by simp
      match st with
      | none =>
        rcases wfScan_none_cons_inv h with ⟨_, _, h3⟩ | ⟨_, _, ys, hys, h3⟩
        · exact hlen ▸ ih none h3
        · refine hlen ▸ ih (some x.attributes) ?_
          rw [hys, wfScan_cons_trailer]; exact h3
      | some a =>
        rcases wfScan_some_inv h with ⟨ys, hys, h3⟩
        have hxs : z :: Q = ys := (List.cons.injEq _ _ _ _ ▸ hys).2
        exact hlen ▸ ih none (hxs ▸ h3)

/-- Writing a wide pair past a well-formed prefix leaves the prefix
unchanged. -/
theorem putRow2_append (R : List Cell) (cp : Nat) (a : GraphicsAttributes) :
    ∀ (P : List Cell) (st : Option GraphicsAttributes), wfScan st P = some none →
      putRow2 (P ++ R) P.length cp a = P ++ putRow2 R 0 cp a := by
  intro P
  induction P with
  | nil => intro st _; rfl
  | cons x P' ih =>
    intro st h
    match P' with
    | [] =>
      have hxw : ¬ x.width = 2 := wfScan_single_not_wide h
      show putRow2 (x :: R) 1 cp a = x :: putRow2 R 0 cp a
      simp only [putRow2, if_neg hxw]
    | z :: Q =>
      show putRow2 (x :: ((z :: Q) ++ R)) (Q.length + 2) cp a
        = x :: ((z :: Q) ++ putRow2 R 0 cp a)
      simp only [putRow2]
      congr 1
      have hlen : (z :: Q).length = Q.length + 1 := by simp
      match st with
      | none =>
        rcases wfScan_none_cons_inv h with ⟨_, _, h3⟩ | ⟨_, _, ys, hys, h3⟩
        · exact hlen ▸ ih none h3
        · refine hlen ▸ ih (some x.attributes) ?_
          rw [hys, wfScan_cons_trailer]; exact h3
      | some b =>
        rcases wfScan_some_inv h with ⟨ys, hys, h3⟩
        have hxs : z :: Q = ys := (List.cons.injEq _ _ _ _ ▸ hys).2
        exact hlen ▸ ih none (hxs ▸ h3)

theorem putRow_blank_head (B : List Cell) (cell : Cell) :
    putRow (blankCell :: B) 0 cell = cell :: B := by
  simp [putRow, blankCell]

theorem putRow2_blank_head (B : List Cell) (cp : Nat) (a : GraphicsAttributes) :
    putRow2 (blankCell :: blankCell :: B) 0 cp a
      = Cell.mk cp 2 a :: trailingCell a :: B := by
  simp [putRow2, blankCell]

/-! ### modifyAt and trimHistory lemmas -/

theorem modifyAt_length {α : Type} (l : List α) :
    ∀ (i : Nat) (f : α → α), (ScreenBuffer.modifyAt l i f).length = l.length := by
  induction l with
  | nil => intro i f; rfl
  | cons x xs ih =>
    intro i f
    match i with
    | 0 => rfl
    | n + 1 => simp only [ScreenBuffer.modifyAt, List.length_cons, ih]

theorem modifyAt_mem {α : Type} (l : List α) :
    ∀ (i : Nat) (f : α → α) (y : α), y ∈ ScreenBuffer.modifyAt l i f →
      y ∈ l ∨ ∃ x ∈ l, y = f x := by
  induction l with
  | nil => intro i f y hy; exact absurd hy (by simp [ScreenBuffer.modifyAt])
  | cons x xs ih =>
    intro i f y hy
    match i with
    | 0 =>
      simp only [ScreenBuffer.modifyAt, List.mem_cons] at hy
      rcases hy with hy | hy
      · exact Or.inr ⟨x, List.mem_cons_self x xs, hy⟩
      · exact Or.inl (List.mem_cons_of_mem x hy)
    | n + 1 =>
      simp only [ScreenBuffer.modifyAt, List.mem_cons] at hy
      rcases hy with hy | hy
      · exact Or.inl (hy ▸ List.mem_cons_self x xs)
      · rcases ih n f y hy with h | ⟨z, hz, hzy⟩
        · exact Or.inl (List.mem_cons_of_mem x h)
        · exact Or.inr ⟨z, List.mem_cons_of_mem x hz, hzy⟩

theorem modifyAt_append {α : Type} (B : List α) (x : α) (f : α → α) :
    ∀ (A : List α), ScreenBuffer.modifyAt (A ++ x :: B) A.length f = A ++ f x :: B := by
  intro A
  induction A with
  | nil => rfl
  | cons z Q ih =>
    show z :: ScreenBuffer.modifyAt (Q ++ x :: B) Q.length f = z :: (Q ++ f x :: B)
    rw [ih]

theorem trimHistory_le (m : Nat) (ls : List Line) :
    (ScreenBuffer.trimHistory (some m) ls).length ≤ m := by
  simp only [ScreenBuffer.trimHistory, List.length_drop]
  omega

theorem trimHistory_mem (max? : Option Nat) (ls : List Line) (l : Line)
    (h : l ∈ ScreenBuffer.trimHistory max? ls) : l ∈ ls := by
  match max? with
  | none => exact h
  | some m => exact List.mem_of_mem_drop h

theorem trimHistory_suffix (max? : Option Nat) (ls : List Line) :
    (ScreenBuffer.trimHistory max? ls) <:+ ls := by
  match max? with
  | none => exact List.suffix_refl ls
  | some m => exact List.drop_suffix _ ls

/-! ### Buffer operation invariants -/

theorem blankLine_cells_length (c : Nat) : (blankLine c).cells.length = c := by
  simp [blankLine]

theorem blankLine_wf (c : Nat) : wfRow (blankLine c).cells := wfRow_replicate_blank c

/-- The grid invariants ignore the cursor, so any cursor update preserves
them. -/
theorem GridInv.cursorUpdate {b : ScreenBuffer} (hg : GridInv b) (c : Cursor) :
    GridInv { b with cursor := c } :=
  ⟨hg.rowsPos, hg.colsPos, hg.linesLen, hg.linesWF, hg.savedWF, hg.marginTopPos,
    hg.marginOrder, hg.marginBottomLe, hg.history⟩

/-- The grid invariants ignore the mode set, so any mode update preserves
them. -/
theorem GridInv.modesUpdate {b : ScreenBuffer} (hg : GridInv b) (ms : List Mode) :
    GridInv { b with enabledModes := ms } :=
  ⟨hg.rowsPos, hg.colsPos, hg.linesLen, hg.linesWF, hg.savedWF, hg.marginTopPos,
    hg.marginOrder, hg.marginBottomLe, hg.history⟩

namespace ScreenBuffer

theorem scrollUpN_lines_length {b : ScreenBuffer} (n : Nat)
    (h1 : 1 ≤ b.margin.top)
    (h2 : b.margin.top ≤ b.margin.bottom) (h3 : b.margin.bottom ≤ b.size.rows)
    (h4 : b.lines.length = b.size.rows) :
    (b.scrollUpN n).lines.length = b.size.rows := by
  simp only [scrollUpN, List.length_append, List.length_take, List.length_drop,
    List.length_replicate]
  omega

theorem scrollUpN_lines_mem {b : ScreenBuffer} {n : Nat} {l : Line}
    (hl : l ∈ (b.scrollUpN n).lines) : l ∈ b.lines ∨ l = blankLine b.size.columns := by
  simp only [scrollUpN, List.mem_append] at hl
  rcases hl with (hl | (hl | hl)) | hl
  · exact Or.inl ((List.take_sublist _ _).mem hl)
  · exact Or.inl ((List.drop_sublist _ _).mem
      ((List.take_sublist _ _).mem ((List.drop_sublist _ _).mem hl)))
  · exact Or.inr (List.eq_of_mem_replicate hl)
  · exact Or.inl ((List.drop_sublist _ _).mem hl)

theorem scrollUpN_saved_mem {b : ScreenBuffer} {n : Nat} {l : Line}
    (hl : l ∈ (b.scrollUpN n).savedLines) : l ∈ b.savedLines ∨ l ∈ b.lines := by
  simp only [scrollUpN] at hl
  split at hl
  · rcases List.mem_append.mp (trimHistory_mem _ _ _ hl) with h | h
    · exact Or.inl h
    · exact Or.inr ((List.drop_sublist _ _).mem
        ((List.take_sublist _ _).mem ((List.take_sublist _ _).mem h)))
  · exact Or.inl hl

theorem scrollUpN_history {b : ScreenBuffer} (n : Nat)
    (hhist : ∀ m, b.maxHistoryLineCount = some m → b.savedLines.length ≤ m) :
    ∀ m, (b.scrollUpN n).maxHistoryLineCount = some m →
      (b.scrollUpN n).savedLines.length ≤ m := by
  intro m hm
  have hm' : b.maxHistoryLineCount = some m := hm
  show (ScreenBuffer.scrollUpN b n).savedLines.length ≤ m
  simp only [scrollUpN]
  split
  · rw [hm']
    exact trimHistory_le m _
  · exact hhist m hm'

theorem scrollUpN_inv {b : ScreenBuffer} (hb : BufInv b) (n : Nat) :
    BufInv (b.scrollUpN n) := by
  obtain ⟨⟨hr, hc, hlen, hwf, hswf, hmt, hmo, hmb, hhist⟩, hc1, hc2, hc3, hc4, ho⟩ := hb
  refine ⟨⟨hr, hc, scrollUpN_lines_length n hmt hmo hmb hlen, ?_, ?_, hmt, hmo, hmb,
    scrollUpN_history n hhist⟩, hc1, hc2, hc3, hc4, ho⟩
  · intro l hl
    rcases scrollUpN_lines_mem hl with h | h
    · exact hwf l h
    · exact h ▸ ⟨blankLine_cells_length _, blankLine_wf _⟩
  · intro l hl
    rcases scrollUpN_saved_mem hl with h | h
    · exact hswf l h
    · exact hwf l h

theorem scrollDownN_inv {b : ScreenBuffer} (hb : BufInv b) (n : Nat) :
    BufInv (b.scrollDownN n) := by
  obtain ⟨⟨hr, hc, hlen, hwf, hswf, hmt, hmo, hmb, hhist⟩, hc1, hc2, hc3, hc4, ho⟩ := hb
  refine ⟨⟨hr, hc, ?_, ?_, hswf, hmt, hmo, hmb, hhist⟩, hc1, hc2, hc3, hc4, ho⟩
  · simp only [scrollDownN, List.length_append, List.length_take, List.length_drop,
      List.length_replicate]
    omega
  · intro l hl
    simp only [scrollDownN, List.mem_append] at hl
    rcases hl with (hl | (hl | hl)) | hl
    · exact hwf l ((List.take_sublist _ _).mem hl)
    · exact (List.eq_of_mem_replicate hl) ▸ ⟨blankLine_cells_length _, blankLine_wf _⟩
    · exact hwf l ((List.drop_sublist _ _).mem
        ((List.take_sublist _ _).mem ((List.take_sublist _ _).mem hl)))
    · exact hwf l ((List.drop_sublist _ _).mem hl)

theorem moveCursorTo_inv {b : ScreenBuffer} (hg : GridInv b) (r c : Nat) :
    BufInv (b.moveCursorTo r c) := by
  obtain ⟨hr, hc, hlen, hwf, hswf, hmt, hmo, hmb, hhist⟩ := hg
  by_cases horig : b.modeSet Mode.origin = true
  · refine ⟨⟨hr, hc, hlen, hwf, hswf, hmt, hmo, hmb, hhist⟩, ?_, ?_, ?_, ?_, ?_⟩ <;>
      simp only [moveCursorTo, if_pos horig]
    · show 1 ≤ min (b.margin.top + max r 1 - 1) b.margin.bottom
      omega
    · show min (b.margin.top + max r 1 - 1) b.margin.bottom ≤ b.size.rows
      omega
    · show 1 ≤ min (max c 1) b.size.columns
      omega
    · show min (max c 1) b.size.columns ≤ b.size.columns
      omega
    · intro _
      constructor
      · show b.margin.top ≤ min (b.margin.top + max r 1 - 1) b.margin.bottom
        omega
      · show min (b.margin.top + max r 1 - 1) b.margin.bottom ≤ b.margin.bottom
        omega
  · refine ⟨⟨hr, hc, hlen, hwf, hswf, hmt, hmo, hmb, hhist⟩, ?_, ?_, ?_, ?_, ?_⟩ <;>
      simp only [moveCursorTo, if_neg horig]
    · show 1 ≤ min (max r 1) b.size.rows
      omega
    · show min (max r 1) b.size.rows ≤ b.size.rows
      omega
    · show 1 ≤ min (max c 1) b.size.columns
      omega
    · show min (max c 1) b.size.columns ≤ b.size.columns
      omega
    · intro hmode
      exact absurd hmode horig

theorem carriageReturn_inv {b : ScreenBuffer} (hb : BufInv b) :
    BufInv b.carriageReturn := by
  obtain ⟨hg, hc1, hc2, hc3, hc4, ho⟩ := hb
  exact ⟨hg.cursorUpdate _, hc1, hc2, le_refl 1, hg.colsPos, ho⟩

theorem backspace_inv {b : ScreenBuffer} (hb : BufInv b) :
    BufInv b.backspace := by
  obtain ⟨hg, hc1, hc2, hc3, hc4, ho⟩ := hb
  refine ⟨hg.cursorUpdate _, hc1, hc2, ?_, ?_, ho⟩
  · show 1 ≤ max (b.cursor.position.column - 1) 1
    omega
  · show max (b.cursor.position.column - 1) 1 ≤ b.size.columns
    have := hg.colsPos
    omega

theorem linefeed_inv {b : ScreenBuffer} (hb : BufInv b) :
    BufInv b.linefeed := by
  by_cases hbot : b.cursor.position.row = b.margin.bottom
  · simp only [linefeed, if_pos hbot]
    obtain ⟨hg, hc1, hc2, hc3, hc4, ho⟩ := scrollUpN_inv hb 1
    exact ⟨hg.cursorUpdate _, hc1, hc2, hc3, hc4, ho⟩
  · simp only [linefeed, if_neg hbot]
    obtain ⟨hg, hc1, hc2, hc3, hc4, ho⟩ := hb
    refine ⟨hg.cursorUpdate _, ?_, ?_, hc3, hc4, ?_⟩
    · show 1 ≤ min (b.cursor.position.row + 1) b.size.rows
      have := hg.rowsPos
      omega
    · show min (b.cursor.position.row + 1) b.size.rows ≤ b.size.rows
      omega
    · intro hmode
      have hor := ho hmode
      have := hg.marginBottomLe
      constructor
      · show b.margin.top ≤ min (b.cursor.position.row + 1) b.size.rows
        omega
      · show min (b.cursor.position.row + 1) b.size.rows ≤ b.margin.bottom
        omega

theorem wrapToNextLine_inv {b : ScreenBuffer} (hb : BufInv b) :
    BufInv b.wrapToNextLine := by
  by_cases hbot : b.cursor.position.row = b.margin.bottom
  · simp only [wrapToNextLine, if_pos hbot]
    obtain ⟨hg, hc1, hc2, hc3, hc4, ho⟩ := scrollUpN_inv hb 1
    exact ⟨hg.cursorUpdate _, hc1, hc2, le_refl 1, hg.colsPos, ho⟩
  · simp only [wrapToNextLine, if_neg hbot]
    obtain ⟨hg, hc1, hc2, hc3, hc4, ho⟩ := hb
    refine ⟨(hg.cursorUpdate _).cursorUpdate _, ?_, ?_, le_refl 1, hg.colsPos, ?_⟩
    · show 1 ≤ min (b.cursor.position.row + 1) b.size.rows
      have := hg.rowsPos
      omega
    · show min (b.cursor.position.row + 1) b.size.rows ≤ b.size.rows
      omega
    · intro hmode
      have hor := ho hmode
      have := hg.marginBottomLe
      constructor
      · show b.margin.top ≤ min (b.cursor.position.row + 1) b.size.rows
        omega
      · show min (b.cursor.position.row + 1) b.size.rows ≤ b.margin.bottom
        omega

/-- Variant of `putRow2_wf` usable at the left edge: a wide write at
column 1 of a well-formed row preserves well-formedness even when the row
is too short for the pair (the write is then a no-op). -/
theorem putRow2_wf_at {cp : Nat} (hcw : charWidth cp = 2) (a : GraphicsAttributes)
    {cells : List Cell} (hwf : wfRow cells) (c : Nat)
    (hc : c = 0 ∨ c + 2 ≤ cells.length) : wfRow (putRow2 cells c cp a) := by
  rcases hc with rfl | hc
  · match cells with
    | [] => exact hwf
    | [x] => rw [putRow2_short]; exact hwf
    | x :: y :: t =>
      exact putRow2_wf hcw a _ none 0 hwf (by simp) (by simp)
  · exact putRow2_wf hcw a _ none c hwf (by simp) hc

theorem modifyCursorLine_inv {b : ScreenBuffer} (hb : BufInv b) {f : List Cell → List Cell}
    (hlen : ∀ cs, cs.length = b.size.columns → (f cs).length = cs.length)
    (hwf : ∀ cs, cs.length = b.size.columns → wfRow cs → wfRow (f cs)) :
    BufInv (modifyCursorLine b f) := by
  obtain ⟨⟨hr, hc, hlen0, hwf0, hswf, hmt, hmo, hmb, hhist⟩, hc1, hc2, hc3, hc4, ho⟩ := hb
  refine ⟨⟨hr, hc, ?_, ?_, hswf, hmt, hmo, hmb, hhist⟩, hc1, hc2, hc3, hc4, ho⟩
  · show (ScreenBuffer.modifyAt b.lines _ _).length = b.size.rows
    rw [modifyAt_length]; exact hlen0
  · intro l hl
    rcases modifyAt_mem _ _ _ _ hl with h | ⟨y, hy, hly⟩
    · exact hwf0 l h
    · obtain ⟨hylen, hywf⟩ := hwf0 y hy
      subst hly
      exact ⟨by simpa [hlen _ hylen] using hylen, hwf _ hylen hywf⟩

theorem wrapPending_inv {b : ScreenBuffer} (hb : BufInv b) : BufInv b.wrapPending := by
  unfold wrapPending
  split
  · exact wrapToNextLine_inv hb
  · exact hb

theorem fitWide_inv {b : ScreenBuffer} (hb : BufInv b) {w : Nat} (hw : 1 ≤ w) :
    BufInv (fitWide w b) := by
  unfold fitWide
  split
  · exact hb
  split
  · exact wrapToNextLine_inv hb
  obtain ⟨hg, hc1, hc2, hc3, hc4, ho⟩ := hb
  refine ⟨hg.cursorUpdate _, hc1, hc2, ?_, ?_, ho⟩
  · show 1 ≤ max (b.size.columns + 1 - w) 1
    omega
  · show max (b.size.columns + 1 - w) 1 ≤ b.size.columns
    have := hg.colsPos
    omega

/-- After the fit stage, a wide character either starts at column 1 or fits
entirely before the right edge. -/
theorem fitWide_post {b : ScreenBuffer} (_hb : BufInv b) {w : Nat} (_hw : 1 ≤ w) :
    (fitWide w b).cursor.position.column = 1 ∨
      (fitWide w b).cursor.position.column + w - 1 ≤ (fitWide w b).size.columns := by
  unfold fitWide
  split
  · exact Or.inr (by assumption)
  split
  · left
    unfold wrapToNextLine
    split <;> rfl
  · show max (b.size.columns + 1 - w) 1 = 1 ∨
      max (b.size.columns + 1 - w) 1 + w - 1 ≤ b.size.columns
    omega

theorem writeChar_inv {b : ScreenBuffer} (hb : BufInv b) {cp w : Nat}
    (hw : w = charWidth cp)
    (hcol : b.cursor.position.column = 1 ∨
      b.cursor.position.column + w - 1 ≤ b.size.columns) :
    BufInv (writeChar cp w b) := by
  unfold writeChar
  split
  · refine modifyCursorLine_inv hb (fun cs _ => putRow2_length cs _ _ _) ?_
    intro cs hcslen hcswf
    refine putRow2_wf_at (by omega) _ hcswf _ ?_
    have hcp := hb.cursorColPos
    rcases hcol with h | h
    · left; omega
    · right; omega
  · have hw1 : w = 1 := by
      have := charWidth_pos cp
      have h2 : charWidth cp = 1 ∨ charWidth cp = 2 := by
        unfold charWidth; split <;> simp
      omega
    refine modifyCursorLine_inv hb (fun cs _ => putRow_length cs _ _) ?_
    intro cs hcslen hcswf
    exact putRow_wf (by simp [hw1]) (by simp [hw1, hw ▸ hw1.symm]) cs none _ hcswf (by simp)

theorem advanceCursor_inv {b : ScreenBuffer} (hb : BufInv b) (w : Nat) :
    BufInv (advanceCursor w b) := by
  obtain ⟨hg, hc1, hc2, hc3, hc4, ho⟩ := hb
  by_cases hgt : b.cursor.position.column + w > b.size.columns
  · simp only [advanceCursor, if_pos hgt]
    exact ⟨hg.cursorUpdate _, hc1, hc2, hg.colsPos, le_refl _, ho⟩
  · simp only [advanceCursor, if_neg hgt]
    refine ⟨hg.cursorUpdate _, hc1, hc2, ?_, ?_, ho⟩
    · show 1 ≤ b.cursor.position.column + w
      omega
    · show b.cursor.position.column + w ≤ b.size.columns
      omega

theorem appendChar_inv {b : ScreenBuffer} (hb : BufInv b) (cp : Nat) :
    BufInv (b.appendChar cp) := by
  have h1 := wrapPending_inv hb
  have h2 := fitWide_inv h1 (charWidth_pos cp)
  have hpost := fitWide_post h1 (charWidth_pos cp)
  have h3 := writeChar_inv h2 rfl hpost
  exact advanceCursor_inv h3 _

theorem clearScreen_inv {b : ScreenBuffer} (hb : BufInv b) : BufInv b.clearScreen := by
  obtain ⟨⟨hr, hc, hlen, hwf, hswf, hmt, hmo, hmb, hhist⟩, hc1, hc2, hc3, hc4, ho⟩ := hb
  refine ⟨⟨hr, hc, ?_, ?_, hswf, hmt, hmo, hmb, hhist⟩, hc1, hc2, hc3, hc4, ho⟩
  · show (List.replicate b.size.rows (blankLine b.size.columns)).length = b.size.rows
    exact List.length_replicate _ _
  · intro l hl
    have := List.eq_of_mem_replicate hl
    exact this ▸ ⟨blankLine_cells_length _, blankLine_wf _⟩

theorem clearLine_inv {b : ScreenBuffer} (hb : BufInv b) : BufInv b.clearLine := by
  refine modifyCursorLine_inv hb ?_ ?_
  · intro cs hcs
    simp [hcs]
  · intro cs _ _
    exact wfRow_replicate_blank _

theorem setTopBottomMargin_inv {b : ScreenBuffer} (hb : BufInv b) (t btm : Nat) :
    BufInv (b.setTopBottomMargin t btm) := by
  simp only [setTopBottomMargin]
  by_cases hb0 : btm = 0
  · rw [if_pos hb0]
    by_cases hlt : max t 1 < min b.size.rows b.size.rows
    · rw [if_pos hlt]
      apply moveCursorTo_inv
      refine ⟨hb.rowsPos, hb.colsPos, hb.linesLen, hb.linesWF, hb.savedWF, ?_, ?_, ?_,
        hb.history⟩
      · show 1 ≤ max t 1
        omega
      · show max t 1 ≤ min b.size.rows b.size.rows
        omega
      · show min b.size.rows b.size.rows ≤ b.size.rows
        omega
    · rw [if_neg hlt]
      exact hb
  · rw [if_neg hb0]
    by_cases hlt : max t 1 < min btm b.size.rows
    · rw [if_pos hlt]
      apply moveCursorTo_inv
      refine ⟨hb.rowsPos, hb.colsPos, hb.linesLen, hb.linesWF, hb.savedWF, ?_, ?_, ?_,
        hb.history⟩
      · show 1 ≤ max t 1
        omega
      · show max t 1 ≤ min btm b.size.rows
        omega
      · show min btm b.size.rows ≤ b.size.rows
        omega
    · rw [if_neg hlt]
      exact hb

theorem setModeFlag_inv {b : ScreenBuffer} (hb : BufInv b) (m : Mode) (e : Bool) :
    BufInv (b.setModeFlag m e) := by
  simp only [setModeFlag]
  by_cases hm : m = Mode.origin
  · rw [if_pos hm]
    exact moveCursorTo_inv (hb.toGridInv.modesUpdate _) 1 1
  · rw [if_neg hm]
    obtain ⟨hg, hc1, hc2, hc3, hc4, ho⟩ := hb
    refine ⟨hg.modesUpdate _, hc1, hc2, hc3, hc4, ?_⟩
    intro hmode
    apply ho
    show decide (Mode.origin ∈ b.enabledModes) = true
    have hmode' : decide (Mode.origin ∈
        (if m ∈ b.enabledModes then
          (if e then b.enabledModes else b.enabledModes.filter (fun x => x ≠ m))
         else (if e then m :: b.enabledModes else b.enabledModes))) = true := hmode
    have hne : Mode.origin ≠ m := fun hh => hm hh.symm
    simp only [decide_eq_true_eq] at hmode' ⊢
    split at hmode'
    · split at hmode'
      · exact hmode'
      · exact (List.mem_filter.mp hmode').1
    · split at hmode'
      · rcases List.mem_cons.mp hmode' with h | h
        · exact absurd h hne
        · exact h
      · exact hmode'

theorem set_append_last {α : Type} (x v : α) :
    ∀ (Q : List α), (Q ++ [x]).set Q.length v = Q ++ [v] := by
  intro Q
  induction Q with
  | nil => rfl
  | cons z R ih =>
    show z :: (R ++ [x]).set R.length v = z :: (R ++ [v])
    rw [ih]

theorem resizeRow_length (cells : List Cell) (n : Nat) :
    (resizeRow cells n).length = n := by
  by_cases hn : n ≤ cells.length
  · simp only [resizeRow, if_pos hn]
    split
    · rw [List.length_set, List.length_take]
      omega
    · rw [List.length_take]
      omega
  · simp only [resizeRow, if_neg hn, List.length_append, List.length_replicate]
    omega

theorem resizeRow_wf {cells : List Cell} (hwf : wfRow cells) (n : Nat) :
    wfRow (resizeRow cells n) := by
  by_cases hn : n ≤ cells.length
  · have hsplit : wfScan none (cells.take n ++ cells.drop n) = some none := by
      rw [List.take_append_drop]; exact hwf
    rw [wfScan_append] at hsplit
    rcases Option.bind_eq_some.mp hsplit with ⟨st, hst, hrest⟩
    match st, hst with
    | none, hst =>
      simp only [resizeRow, if_pos hn, hst]
      exact hst
    | some a, hst =>
      simp only [resizeRow, if_pos hn, hst]
      rcases wfScan_ends_leader _ none a hst with ⟨hnil, hcontra⟩ | ⟨Q, ldr, hQ, _, _, _, hscan⟩
      · exact absurd hcontra (by simp)
      · have hql : Q.length = n - 1 := by
          have : (cells.take n).length = n := by rw [List.length_take]; omega
          rw [hQ, List.length_append] at this
          simp at this
          omega
        rw [hQ, ← hql, set_append_last]
        show wfScan none (Q ++ [blankCell]) = some none
        rw [wfScan_append, hscan]
        exact rfl
  · simp only [resizeRow, if_neg hn]
    show wfScan none (cells ++ _) = some none
    rw [wfScan_append, hwf]
    exact wfRow_replicate_blank _

theorem resizeBuf_inv {b : ScreenBuffer} (hb : BufInv b) {ns : WindowSize}
    (hnr : 1 ≤ ns.rows) (hnc : 1 ≤ ns.columns) : BufInv (b.resizeBuf ns) := by
  obtain ⟨⟨hr, hc, hlen, hwf, hswf, hmt, hmo, hmb, hhist⟩, hc1, hc2, hc3, hc4, ho⟩ := hb
  have hadj : ∀ l, l ∈ b.lines.map (fun l => Line.mk (resizeRow l.cells ns.columns) l.wrapped)
      ∨ l ∈ b.savedLines.map (fun l => Line.mk (resizeRow l.cells ns.columns) l.wrapped) →
      l.cells.length = ns.columns ∧ wfRow l.cells := by
    intro l hl
    rcases hl with hl | hl <;> rcases List.mem_map.mp hl with ⟨y, hy, hly⟩
    · exact hly ▸ ⟨resizeRow_length _ _, resizeRow_wf (hwf y hy).2 _⟩
    · exact hly ▸ ⟨resizeRow_length _ _, resizeRow_wf (hswf y hy).2 _⟩
  have hcursor1 : 1 ≤ min (max (b.cursor.position.row - (b.size.rows - ns.rows)) 1) ns.rows := by
    omega
  have hcursor2 : min (max (b.cursor.position.row - (b.size.rows - ns.rows)) 1) ns.rows
      ≤ ns.rows := by omega
  have hcol1 : 1 ≤ min b.cursor.position.column ns.columns := by omega
  have hcol2 : min b.cursor.position.column ns.columns ≤ ns.columns := by omega
  by_cases hsh : ns.rows < b.size.rows
  · by_cases hp : b.type = ScreenBufferType.primary
    · simp only [resizeBuf, if_pos hsh,
        if_pos (show ns.rows < b.size.rows ∧ b.type = ScreenBufferType.primary
          from ⟨hsh, hp⟩)]
      refine ⟨⟨hnr, hnc, ?_, ?_, ?_, le_refl 1, hnr, le_refl _, ?_⟩,
        hcursor1, hcursor2, hcol1, hcol2, fun _ => ⟨hcursor1, hcursor2⟩⟩
      · dsimp only
        rw [List.length_drop, List.length_map]
        omega
      · intro l hl
        exact hadj l (Or.inl ((List.drop_sublist _ _).mem hl))
      · intro l hl
        rcases List.mem_append.mp (trimHistory_mem _ _ _ hl) with h | h
        · exact hadj l (Or.inr h)
        · exact hadj l (Or.inl ((List.take_sublist _ _).mem h))
      · intro m hm
        have hm' : b.maxHistoryLineCount = some m := hm
        dsimp only
        rw [hm']
        exact trimHistory_le m _
    · simp only [resizeBuf, if_pos hsh,
        if_neg (show ¬(ns.rows < b.size.rows ∧ b.type = ScreenBufferType.primary)
          from fun hcon => hp hcon.2)]
      refine ⟨⟨hnr, hnc, ?_, ?_, ?_, le_refl 1, hnr, le_refl _, ?_⟩,
        hcursor1, hcursor2, hcol1, hcol2, fun _ => ⟨hcursor1, hcursor2⟩⟩
      · dsimp only
        rw [List.length_drop, List.length_map]
        omega
      · intro l hl
        exact hadj l (Or.inl ((List.drop_sublist _ _).mem hl))
      · intro l hl
        exact hadj l (Or.inr hl)
      · intro m hm
        have hm' : b.maxHistoryLineCount = some m := hm
        dsimp only
        rw [List.length_map]
        exact hhist m hm'
  · simp only [resizeBuf, if_neg hsh,
      if_neg (show ¬(ns.rows < b.size.rows ∧ b.type = ScreenBufferType.primary)
        from fun hcon => hsh hcon.1)]
    refine ⟨⟨hnr, hnc, ?_, ?_, ?_, le_refl 1, hnr, le_refl _, ?_⟩,
      hcursor1, hcursor2, hcol1, hcol2, fun _ => ⟨hcursor1, hcursor2⟩⟩
    · dsimp only
      rw [List.length_append, List.length_map, List.length_replicate]
      omega
    · intro l hl
      rcases List.mem_append.mp hl with h | h
      · exact hadj l (Or.inl h)
      · have hlb := List.eq_of_mem_replicate h
        subst hlb
        exact ⟨blankLine_cells_length _, blankLine_wf _⟩
    · intro l hl
      exact hadj l (Or.inr hl)
    · intro m hm
      have hm' : b.maxHistoryLineCount = some m := hm
      dsimp only
      rw [List.length_map]
      exact hhist m hm'

/-! ### Frame facts: buffer operations do not change size or type -/

theorem wrapToNextLine_size (b : ScreenBuffer) : b.wrapToNextLine.size = b.size := by
  unfold wrapToNextLine; split <;> rfl

theorem wrapToNextLine_type (b : ScreenBuffer) : b.wrapToNextLine.type = b.type := by
  unfold wrapToNextLine; split <;> rfl

theorem linefeed_size (b : ScreenBuffer) : b.linefeed.size = b.size := by
  unfold linefeed; split <;> rfl

theorem linefeed_type (b : ScreenBuffer) : b.linefeed.type = b.type := by
  unfold linefeed; split <;> rfl

theorem wrapPending_size (b : ScreenBuffer) : b.wrapPending.size = b.size := by
  unfold wrapPending; split
  · exact wrapToNextLine_size b
  · rfl

theorem wrapPending_type (b : ScreenBuffer) : b.wrapPending.type = b.type := by
  unfold wrapPending; split
  · exact wrapToNextLine_type b
  · rfl

theorem fitWide_size (w : Nat) (b : ScreenBuffer) : (fitWide w b).size = b.size := by
  unfold fitWide; split
  · rfl
  split
  · exact wrapToNextLine_size b
  · rfl

theorem fitWide_type (w : Nat) (b : ScreenBuffer) : (fitWide w b).type = b.type := by
  unfold fitWide; split
  · rfl
  split
  · exact wrapToNextLine_type b
  · rfl

theorem writeChar_size (cp w : Nat) (b : ScreenBuffer) : (writeChar cp w b).size = b.size := by
  unfold writeChar; split <;> rfl

theorem writeChar_type (cp w : Nat) (b : ScreenBuffer) : (writeChar cp w b).type = b.type := by
  unfold writeChar; split <;> rfl

theorem advanceCursor_size (w : Nat) (b : ScreenBuffer) :
    (advanceCursor w b).size = b.size := by
  unfold advanceCursor; split <;> rfl

theorem advanceCursor_type (w : Nat) (b : ScreenBuffer) :
    (advanceCursor w b).type = b.type := by
  unfold advanceCursor; split <;> rfl

theorem appendChar_size (b : ScreenBuffer) (cp : Nat) : (b.appendChar cp).size = b.size := by
  unfold appendChar
  rw [advanceCursor_size, writeChar_size, fitWide_size, wrapPending_size]

theorem appendChar_type (b : ScreenBuffer) (cp : Nat) : (b.appendChar cp).type = b.type := by
  unfold appendChar
  rw [advanceCursor_type, writeChar_type, fitWide_type, wrapPending_type]

theorem setTopBottomMargin_size (b : ScreenBuffer) (t btm : Nat) :
    (b.setTopBottomMargin t btm).size = b.size := by
  simp only [setTopBottomMargin]
  repeat' split
  all_goals rfl

theorem setTopBottomMargin_type (b : ScreenBuffer) (t btm : Nat) :
    (b.setTopBottomMargin t btm).type = b.type := by
  simp only [setTopBottomMargin]
  repeat' split
  all_goals rfl

theorem setModeFlag_size (b : ScreenBuffer) (m : Mode) (e : Bool) :
    (b.setModeFlag m e).size = b.size := by
  simp only [setModeFlag]
  repeat' split
  all_goals rfl

theorem setModeFlag_type (b : ScreenBuffer) (m : Mode) (e : Bool) :
    (b.setModeFlag m e).type = b.type := by
  simp only [setModeFlag]
  repeat' split
  all_goals rfl

end ScreenBuffer

/-! ### Screen-level invariance -/

theorem ScreenInv.parserUpdate {s : Screen} (hs : ScreenInv s) (p : ParserState) :
    ScreenInv { s with parserState := p } :=
  ⟨hs.prim, hs.alt, hs.primType, hs.altType, hs.primSize, hs.altSize⟩

theorem modifyBuffer_inv {s : Screen} (hs : ScreenInv s) {f : ScreenBuffer → ScreenBuffer}
    (hf : ∀ b, BufInv b → BufInv (f b))
    (hsize : ∀ b, (f b).size = b.size) (htype : ∀ b, (f b).type = b.type) :
    ScreenInv (s.modifyBuffer f) := by
  unfold Screen.modifyBuffer
  match s.bufferType with
  | ScreenBufferType.primary =>
    exact ⟨hf _ hs.prim, hs.alt, (htype _).trans hs.primType, hs.altType,
      (hsize _).trans hs.primSize, hs.altSize⟩
  | ScreenBufferType.alternate =>
    exact ⟨hs.prim, hf _ hs.alt, hs.primType, (htype _).trans hs.altType,
      hs.primSize, (hsize _).trans hs.altSize⟩

theorem reply_inv {s : Screen} (hs : ScreenInv s) (msg : String) :
    ScreenInv (s.reply msg) := by
  unfold Screen.reply
  split
  · exact ⟨hs.prim, hs.alt, hs.primType, hs.altType, hs.primSize, hs.altSize⟩
  · exact hs

theorem sgrBuffer_inv {b : ScreenBuffer} (hb : BufInv b) (a : GraphicsAttributes) :
    BufInv { b with cursor := { b.cursor with graphicsRendition := a } } := by
  obtain ⟨hg, hc1, hc2, hc3, hc4, ho⟩ := hb
  exact ⟨hg.cursorUpdate _, hc1, hc2, hc3, hc4, ho⟩

theorem applyCommand_inv {s : Screen} (hs : ScreenInv s) (c : Command) :
    ScreenInv (s.applyCommand c) := by
  cases c with
  | appendChar cp =>
    exact modifyBuffer_inv hs (fun b hb => ScreenBuffer.appendChar_inv hb cp)
      (fun b => ScreenBuffer.appendChar_size b cp) (fun b => ScreenBuffer.appendChar_type b cp)
  | linefeed =>
    exact modifyBuffer_inv hs (fun b hb => ScreenBuffer.linefeed_inv hb)
      ScreenBuffer.linefeed_size ScreenBuffer.linefeed_type
  | carriageReturn =>
    exact modifyBuffer_inv hs (fun b hb => ScreenBuffer.carriageReturn_inv hb)
      (fun b => rfl) (fun b => rfl)
  | backspace =>
    exact modifyBuffer_inv hs (fun b hb => ScreenBuffer.backspace_inv hb)
      (fun b => rfl) (fun b => rfl)
  | moveCursorTo r col =>
    exact modifyBuffer_inv hs (fun b hb => ScreenBuffer.moveCursorTo_inv hb.toGridInv r col)
      (fun b => rfl) (fun b => rfl)
  | clearScreen =>
    exact modifyBuffer_inv hs (fun b hb => ScreenBuffer.clearScreen_inv hb)
      (fun b => rfl) (fun b => rfl)
  | clearLine =>
    exact modifyBuffer_inv hs (fun b hb => ScreenBuffer.clearLine_inv hb)
      (fun b => rfl) (fun b => rfl)
  | setGraphicsRendition items =>
    exact modifyBuffer_inv hs
      (fun b hb => sgrBuffer_inv hb (items.foldl applySgr b.cursor.graphicsRendition))
      (fun b => rfl) (fun b => rfl)
  | setMode m e =>
    show ScreenInv (if m = Mode.useAlternateScreen then _ else _)
    split
    · exact ⟨hs.prim, hs.alt, hs.primType, hs.altType, hs.primSize, hs.altSize⟩
    · exact modifyBuffer_inv hs (fun b hb => ScreenBuffer.setModeFlag_inv hb m e)
        (fun b => ScreenBuffer.setModeFlag_size b m e)
        (fun b => ScreenBuffer.setModeFlag_type b m e)
  | setTopBottomMargin t btm =>
    exact modifyBuffer_inv hs (fun b hb => ScreenBuffer.setTopBottomMargin_inv hb t btm)
      (fun b => ScreenBuffer.setTopBottomMargin_size b t btm)
      (fun b => ScreenBuffer.setTopBottomMargin_type b t btm)
  | scrollUp n =>
    exact modifyBuffer_inv hs (fun b hb => ScreenBuffer.scrollUpN_inv hb n)
      (fun b => rfl) (fun b => rfl)
  | scrollDown n =>
    exact modifyBuffer_inv hs (fun b hb => ScreenBuffer.scrollDownN_inv hb n)
      (fun b => rfl) (fun b => rfl)
  | deviceStatusReport => exact reply_inv hs _
  | reportCursorPosition => exact reply_inv hs _
  | sendDeviceAttributes => exact reply_inv hs _
  | requestMode m => exact reply_inv hs _

theorem dispatchCsi_inv {s : Screen} (hs : ScreenInv s) (priv : Bool) (params : List Nat)
    (final : Nat) : ScreenInv (Screen.dispatchCsi s priv params final) := by
  unfold Screen.dispatchCsi
  repeat' split
  all_goals first
    | exact hs
    | exact applyCommand_inv hs _

theorem groundByte_inv {s : Screen} (hs : ScreenInv s) (byte : Nat) :
    ScreenInv (Screen.groundByte s byte) := by
  unfold Screen.groundByte
  repeat' split
  all_goals first
    | exact hs
    | exact hs.parserUpdate _
    | exact applyCommand_inv hs _

theorem writeByte_inv {s : Screen} (hs : ScreenInv s) (byte : Nat) :
    ScreenInv (s.writeByte byte) := by
  unfold Screen.writeByte
  repeat' split
  all_goals first
    | exact hs
    | exact hs.parserUpdate _
    | exact applyCommand_inv hs _
    | exact applyCommand_inv (hs.parserUpdate _) _
    | exact dispatchCsi_inv (hs.parserUpdate _) _ _ _
    | exact groundByte_inv (hs.parserUpdate _) _
    | exact groundByte_inv (applyCommand_inv (hs.parserUpdate _) _) _

theorem resize_inv {s : Screen} (hs : ScreenInv s) (ns : WindowSize) :
    ScreenInv (s.resize ns) := by
  unfold Screen.resize
  split
  · next h =>
    refine ⟨ScreenBuffer.resizeBuf_inv hs.prim h.1 h.2,
      ScreenBuffer.resizeBuf_inv hs.alt h.1 h.2, hs.primType, hs.altType, rfl, rfl⟩
  · exact hs

theorem trimBuffer_inv {b : ScreenBuffer} (hb : BufInv b) (n : Option Nat) :
    BufInv { b with
      maxHistoryLineCount := n
      savedLines := ScreenBuffer.trimHistory n b.savedLines } := by
  obtain ⟨⟨hr, hc, hlen, hwf, hswf, hmt, hmo, hmb, hhist⟩, hc1, hc2, hc3, hc4, ho⟩ := hb
  refine ⟨⟨hr, hc, hlen, hwf, ?_, hmt, hmo, hmb, ?_⟩, hc1, hc2, hc3, hc4, ho⟩
  · intro l hl
    exact hswf l (trimHistory_mem _ _ _ hl)
  · intro m hm
    have hm' : n = some m := hm
    subst hm'
    exact trimHistory_le m _

theorem setMaxHistoryLineCount_inv {s : Screen} (hs : ScreenInv s) (n : Option Nat) :
    ScreenInv (s.setMaxHistoryLineCount n) :=
  ⟨trimBuffer_inv hs.prim n, trimBuffer_inv hs.alt n, hs.primType, hs.altType,
    hs.primSize, hs.altSize⟩

theorem tabWidthBuffer_inv {b : ScreenBuffer} (hb : BufInv b) (v : Nat) :
    BufInv { b with tabWidth := v } := by
  obtain ⟨⟨hr, hc, hlen, hwf, hswf, hmt, hmo, hmb, hhist⟩, hc1, hc2, hc3, hc4, ho⟩ := hb
  exact ⟨⟨hr, hc, hlen, hwf, hswf, hmt, hmo, hmb, hhist⟩, hc1, hc2, hc3, hc4, ho⟩

theorem setTabWidth_inv {s : Screen} (hs : ScreenInv s) (v : Nat) :
    ScreenInv (s.setTabWidth v) :=
  ⟨tabWidthBuffer_inv hs.prim v, tabWidthBuffer_inv hs.alt v, hs.primType, hs.altType,
    hs.primSize, hs.altSize⟩

theorem initBuffer_inv (t : ScreenBufferType) {sz : WindowSize} (maxHist : Option Nat)
    (hr : 1 ≤ sz.rows) (hc : 1 ≤ sz.columns) :
    BufInv (Screen.initBuffer t sz maxHist) := by
  refine ⟨⟨hr, hc, List.length_replicate _ _, ?_, ?_, le_refl 1, hr, le_refl _, ?_⟩,
    le_refl 1, hr, le_refl 1, hc, ?_⟩
  · intro l hl
    have := List.eq_of_mem_replicate hl
    exact this ▸ ⟨blankLine_cells_length _, blankLine_wf _⟩
  · intro l hl
    exact absurd hl (by simp [Screen.initBuffer])
  · intro m hm
    simp [Screen.initBuffer]
  · intro hmode
    exact absurd hmode (by simp [Screen.initBuffer, ScreenBuffer.modeSet])

theorem initScreen_inv {sz : WindowSize} (maxHist : Option Nat) (hasReply : Bool)
    (hr : 1 ≤ sz.rows) (hc : 1 ≤ sz.columns) :
    ScreenInv (Screen.initScreen sz maxHist hasReply) :=
  ⟨initBuffer_inv _ maxHist hr hc, initBuffer_inv _ maxHist hr hc, rfl, rfl, rfl, rfl⟩

/-- The master lemma: every reachable screen state satisfies the structural
invariants of spec §3. -/
theorem reachable_inv {s : Screen} (h : Reachable s) : ScreenInv s := by
  induction h with
  | init sz maxHist hasReply hr hc => exact initScreen_inv maxHist hasReply hr hc
  | write byte _ ih => exact writeByte_inv ih byte
  | command c _ ih => exact applyCommand_inv ih c
  | resize ns _ ih => exact resize_inv ih ns
  | setMaxHistory n _ ih => exact setMaxHistoryLineCount_inv ih n
  | setTabW n _ ih => exact setTabWidth_inv ih n

theorem currentBuffer_modifyBuffer (s : Screen) (f : ScreenBuffer → ScreenBuffer) :
    (s.modifyBuffer f).currentBuffer = f s.currentBuffer := by
  unfold Screen.modifyBuffer Screen.currentBuffer
  match s.bufferType with
  | ScreenBufferType.primary => rfl
  | ScreenBufferType.alternate => rfl

theorem currentBuffer_inv {s : Screen} (hs : ScreenInv s) :
    BufInv s.currentBuffer ∧ s.currentBuffer.size = s.size_ := by
  unfold Screen.currentBuffer
  match s.bufferType with
  | ScreenBufferType.primary => exact ⟨hs.prim, hs.primSize⟩
  | ScreenBufferType.alternate => exact ⟨hs.alt, hs.altSize⟩

/-! ### Claim theorems -/

/-- C1: stream framing independence of `Screen::write`.  Feeding any
splitting of a byte sequence into consecutive chunks one chunk at a time
produces exactly the same final screen state — buffers, cursor, modes,
replies and parser state — as feeding the concatenated sequence at once. -/
theorem write_framing_independence (s : Screen) (chunks : List (List Nat)) :
    chunks.foldl Screen.write s = s.write chunks.flatten := by
  induction chunks generalizing s with
  | nil => rfl
  | cons c cs ih =>
    show cs.foldl Screen.write (s.write c) = s.write ((c :: cs).flatten)
    rw [ih (s.write c)]
    unfold Screen.write
    rw [List.flatten_cons, List.foldl_append]

/-- C8: the active buffer selector designates exactly one of the primary
and alternate buffers, so `isPrimaryScreen` and `isAlternateScreen` never
agree; and `isModeEnabled(UseAlternateScreen)` is answered from the buffer
selector — not from the `enabledModes` set, whose contents it ignores. -/
theorem single_current_buffer (s : Screen) :
    s.isPrimaryScreen = !s.isAlternateScreen ∧
    s.isModeEnabled Mode.useAlternateScreen = s.isAlternateScreen ∧
    (∀ ms : List Mode,
      Screen.isModeEnabled
        { s with
          primaryBuffer := { s.primaryBuffer with enabledModes := ms }
          alternateBuffer := { s.alternateBuffer with enabledModes := ms } }
        Mode.useAlternateScreen = s.isAlternateScreen) := by
  refine ⟨?_, ?_, ?_⟩
  · unfold Screen.isPrimaryScreen Screen.isAlternateScreen
    cases s.bufferType <;> rfl
  · rfl
  · intro ms
    unfold Screen.isModeEnabled Screen.isAlternateScreen
    cases s.bufferType <;> rfl

/-- C10: `Screen::setTabWidth` sets the tab width of both the primary and
the alternate buffer — whichever buffer is active — and modifies nothing
else: every other buffer field and every other screen field is unchanged. -/
theorem setTabWidth_both_buffers (s : Screen) (n : Nat) (_hn : 0 < n) :
    ((s.setTabWidth n).primaryBuffer.tabWidth = n ∧
     (s.setTabWidth n).alternateBuffer.tabWidth = n) ∧
    (s.setTabWidth n).bufferType = s.bufferType ∧
    (s.setTabWidth n).size_ = s.size_ ∧
    (s.setTabWidth n).replyData = s.replyData ∧
    (s.setTabWidth n).parserState = s.parserState ∧
    (s.setTabWidth n).hasReplyCallback = s.hasReplyCallback ∧
    (s.setTabWidth n).primaryBuffer.lines = s.primaryBuffer.lines ∧
    (s.setTabWidth n).primaryBuffer.savedLines = s.primaryBuffer.savedLines ∧
    (s.setTabWidth n).primaryBuffer.cursor = s.primaryBuffer.cursor ∧
    (s.setTabWidth n).primaryBuffer.margin = s.primaryBuffer.margin ∧
    (s.setTabWidth n).primaryBuffer.enabledModes = s.primaryBuffer.enabledModes ∧
    (s.setTabWidth n).primaryBuffer.size = s.primaryBuffer.size ∧
    (s.setTabWidth n).primaryBuffer.maxHistoryLineCount
      = s.primaryBuffer.maxHistoryLineCount ∧
    (s.setTabWidth n).alternateBuffer.lines = s.alternateBuffer.lines ∧
    (s.setTabWidth n).alternateBuffer.savedLines = s.alternateBuffer.savedLines ∧
    (s.setTabWidth n).alternateBuffer.cursor = s.alternateBuffer.cursor ∧
    (s.setTabWidth n).alternateBuffer.margin = s.alternateBuffer.margin ∧
    (s.setTabWidth n).alternateBuffer.enabledModes = s.alternateBuffer.enabledModes ∧
    (s.setTabWidth n).alternateBuffer.size = s.alternateBuffer.size ∧
    (s.setTabWidth n).alternateBuffer.maxHistoryLineCount
      = s.alternateBuffer.maxHistoryLineCount :=
  ⟨⟨rfl, rfl⟩, rfl, rfl, rfl, rfl, rfl, rfl, rfl, rfl, rfl, rfl, rfl, rfl, rfl, rfl,
    rfl, rfl, rfl, rfl, rfl⟩

/-- Witness for C10 at a concrete screen and tab width. -/
theorem setTabWidth_both_buffers_witness :
    0 < 4 ∧
    ((Screen.initScreen ⟨3, 2⟩ none false).setTabWidth 4).primaryBuffer.tabWidth = 4 ∧
    ((Screen.initScreen ⟨3, 2⟩ none false).setTabWidth 4).alternateBuffer.tabWidth = 4 :=
  ⟨by decide,
    (setTabWidth_both_buffers (Screen.initScreen ⟨3, 2⟩ none false) 4 (by decide)).1.1,
    (setTabWidth_both_buffers (Screen.initScreen ⟨3, 2⟩ none false) 4 (by decide)).1.2⟩

/-- C9: a reply-producing command on a screen constructed without a reply
callback completes normally and is a complete no-op — the formatted message
is silently discarded; with a callback installed, the formatted message is
appended to the reply channel unchanged and nothing else changes. -/
theorem reply_without_callback_noop (s : Screen) (c : Command)
    (hq : Screen.isQuery c = true) :
    (s.hasReplyCallback = false → s.applyCommand c = s) ∧
    (s.hasReplyCallback = true →
      s.applyCommand c = { s with replyData := s.replyData ++ [s.formatReply c] }) := by
  have hr : ∀ msg : String,
      (s.hasReplyCallback = false → s.reply msg = s) ∧
      (s.hasReplyCallback = true →
        s.reply msg = { s with replyData := s.replyData ++ [msg] }) := by
    intro msg
    constructor
    · intro hcb
      unfold Screen.reply
      rw [if_neg (by simp [hcb])]
    · intro hcb
      unfold Screen.reply
      rw [if_pos hcb]
  cases c with
  | deviceStatusReport => exact hr _
  | reportCursorPosition => exact hr _
  | sendDeviceAttributes => exact hr _
  | requestMode m => exact hr _
  | appendChar cp => simp [Screen.isQuery] at hq
  | linefeed => simp [Screen.isQuery] at hq
  | carriageReturn => simp [Screen.isQuery] at hq
  | backspace => simp [Screen.isQuery] at hq
  | moveCursorTo r col => simp [Screen.isQuery] at hq
  | clearScreen => simp [Screen.isQuery] at hq
  | clearLine => simp [Screen.isQuery] at hq
  | setGraphicsRendition items => simp [Screen.isQuery] at hq
  | setMode m e => simp [Screen.isQuery] at hq
  | setTopBottomMargin t btm => simp [Screen.isQuery] at hq
  | scrollUp n => simp [Screen.isQuery] at hq
  | scrollDown n => simp [Screen.isQuery] at hq

/-- Witness for C9: a device status report on a fresh screen without a
callback leaves the screen untouched, and with a callback appends exactly
the formatted message. -/
theorem reply_without_callback_noop_witness :
    Screen.isQuery Command.deviceStatusReport = true ∧
    ((Screen.initScreen ⟨3, 2⟩ none false).applyCommand Command.deviceStatusReport
      = Screen.initScreen ⟨3, 2⟩ none false) ∧
    ((Screen.initScreen ⟨3, 2⟩ none true).applyCommand Command.deviceStatusReport
      = { Screen.initScreen ⟨3, 2⟩ none true with replyData := ["\x1b[0n"] }) :=
  ⟨rfl,
    (reply_without_callback_noop (Screen.initScreen ⟨3, 2⟩ none false)
      Command.deviceStatusReport rfl).1 rfl,
    (reply_without_callback_noop (Screen.initScreen ⟨3, 2⟩ none true)
      Command.deviceStatusReport rfl).2 rfl⟩

/-- C7: `MoveCursorTo` clamps out-of-range parameters to the screen (or,
under Origin mode, margin) bounds: the cursor lands exactly on the nearest
in-bounds position, the command never fails, and the cursor never ends up
outside the screen or (under Origin mode) the margin region. -/
theorem moveCursorTo_clamps (s : Screen) (r c : Nat)
    (hmt : 1 ≤ s.currentBuffer.margin.top)
    (hmo : s.currentBuffer.margin.top ≤ s.currentBuffer.margin.bottom)
    (hmb : s.currentBuffer.margin.bottom ≤ s.currentBuffer.size.rows)
    (hrows : 1 ≤ s.currentBuffer.size.rows)
    (hcols : 1 ≤ s.currentBuffer.size.columns) :
    ((s.applyCommand (Command.moveCursorTo r c)).currentBuffer.cursor.position.row =
      (if s.currentBuffer.modeSet Mode.origin then
        min (s.currentBuffer.margin.top + max r 1 - 1) s.currentBuffer.margin.bottom
      else min (max r 1) s.currentBuffer.size.rows)) ∧
    ((s.applyCommand (Command.moveCursorTo r c)).currentBuffer.cursor.position.column =
      min (max c 1) s.currentBuffer.size.columns) ∧
    (1 ≤ (s.applyCommand (Command.moveCursorTo r c)).currentBuffer.cursor.position.row ∧
      (s.applyCommand (Command.moveCursorTo r c)).currentBuffer.cursor.position.row
        ≤ s.currentBuffer.size.rows) ∧
    (1 ≤ (s.applyCommand (Command.moveCursorTo r c)).currentBuffer.cursor.position.column ∧
      (s.applyCommand (Command.moveCursorTo r c)).currentBuffer.cursor.position.column
        ≤ s.currentBuffer.size.columns) ∧
    (s.currentBuffer.modeSet Mode.origin = true →
      s.currentBuffer.margin.top
        ≤ (s.applyCommand (Command.moveCursorTo r c)).currentBuffer.cursor.position.row ∧
      (s.applyCommand (Command.moveCursorTo r c)).currentBuffer.cursor.position.row
        ≤ s.currentBuffer.margin.bottom) := by
  have e : (s.applyCommand (Command.moveCursorTo r c)).currentBuffer
      = s.currentBuffer.moveCursorTo r c := currentBuffer_modifyBuffer s _
  rw [e]
  by_cases horig : s.currentBuffer.modeSet Mode.origin = true
  · simp only [ScreenBuffer.moveCursorTo, if_pos horig]
    refine ⟨trivial, trivial, ?_, ?_, ?_⟩
    · constructor
      · show 1 ≤ min (s.currentBuffer.margin.top + max r 1 - 1) s.currentBuffer.margin.bottom
        omega
      · show min (s.currentBuffer.margin.top + max r 1 - 1) s.currentBuffer.margin.bottom
          ≤ s.currentBuffer.size.rows
        omega
    · constructor
      · show 1 ≤ min (max c 1) s.currentBuffer.size.columns
        omega
      · show min (max c 1) s.currentBuffer.size.columns ≤ s.currentBuffer.size.columns
        omega
    · intro _
      constructor
      · show s.currentBuffer.margin.top
          ≤ min (s.currentBuffer.margin.top + max r 1 - 1) s.currentBuffer.margin.bottom
        omega
      · show min (s.currentBuffer.margin.top + max r 1 - 1) s.currentBuffer.margin.bottom
          ≤ s.currentBuffer.margin.bottom
        omega
  · simp only [ScreenBuffer.moveCursorTo, if_neg horig]
    refine ⟨trivial, trivial, ?_, ?_, ?_⟩
    · constructor
      · show 1 ≤ min (max r 1) s.currentBuffer.size.rows
        omega
      · show min (max r 1) s.currentBuffer.size.rows ≤ s.currentBuffer.size.rows
        omega
    · constructor
      · show 1 ≤ min (max c 1) s.currentBuffer.size.columns
        omega
      · show min (max c 1) s.currentBuffer.size.columns ≤ s.currentBuffer.size.columns
        omega
    · intro hcontra
      exact absurd hcontra horig

/-- Witness for C7: `MoveCursorTo(1000000, 50)` on a fresh 80×24 screen
lands exactly on the clamped position (24, 50). -/
theorem moveCursorTo_clamps_witness :
    ((Screen.initScreen ⟨80, 24⟩ none false).applyCommand
      (Command.moveCursorTo 1000000 50)).currentBuffer.cursor.position.row = 24 ∧
    ((Screen.initScreen ⟨80, 24⟩ none false).applyCommand
      (Command.moveCursorTo 1000000 50)).currentBuffer.cursor.position.column = 50 := by
  have h := moveCursorTo_clamps (Screen.initScreen ⟨80, 24⟩ none false) 1000000 50
    (by decide) (by decide) (by decide) (by decide) (by decide)
  constructor
  · rw [h.1]; decide
  · rw [h.2.1]; decide

theorem modeSet_congr {b b' : ScreenBuffer} (h : b'.enabledModes = b.enabledModes)
    (m : Mode) : b'.modeSet m = b.modeSet m := by
  unfold ScreenBuffer.modeSet
  rw [h]

theorem ScreenBuffer.writeChar_cursor (cp w : Nat) (b : ScreenBuffer) :
    (ScreenBuffer.writeChar cp w b).cursor = b.cursor := by
  unfold ScreenBuffer.writeChar ScreenBuffer.modifyCursorLine
  split <;> rfl

theorem ScreenBuffer.writeChar_margin (cp w : Nat) (b : ScreenBuffer) :
    (ScreenBuffer.writeChar cp w b).margin = b.margin := by
  unfold ScreenBuffer.writeChar ScreenBuffer.modifyCursorLine
  split <;> rfl

theorem ScreenBuffer.writeChar_modes (cp w : Nat) (b : ScreenBuffer) :
    (ScreenBuffer.writeChar cp w b).enabledModes = b.enabledModes := by
  unfold ScreenBuffer.writeChar ScreenBuffer.modifyCursorLine
  split <;> rfl

theorem ScreenBuffer.advanceCursor_row (w : Nat) (b : ScreenBuffer) :
    (ScreenBuffer.advanceCursor w b).cursor.position.row = b.cursor.position.row := by
  unfold ScreenBuffer.advanceCursor
  split <;> rfl

/-- C4: DEC last-column behavior of AppendChar.  Writing a character whose
advance would pass the right margin with AutoWrap enabled leaves the cursor
in the last column of the same row with `autoWrapPending` set; the wrap to
the next line happens only when the next character arrives — the second
append lands on the following row. -/
theorem last_column_pending_wrap (s : Screen) (cp cp2 : Nat)
    (hauto : s.currentBuffer.modeSet Mode.autoWrap = true)
    (hpend : s.currentBuffer.cursor.autoWrapPending = false)
    (hfit : s.currentBuffer.cursor.position.column + charWidth cp - 1
      ≤ s.currentBuffer.size.columns)
    (hpast : s.currentBuffer.size.columns
      < s.currentBuffer.cursor.position.column + charWidth cp)
    (hw2 : charWidth cp2 = 1)
    (hrow : s.currentBuffer.cursor.position.row < s.currentBuffer.margin.bottom)
    (hmb : s.currentBuffer.margin.bottom ≤ s.currentBuffer.size.rows)
    (hcols : 1 ≤ s.currentBuffer.size.columns) :
    ((s.applyCommand (Command.appendChar cp)).currentBuffer.cursor.position.row
        = s.currentBuffer.cursor.position.row ∧
      (s.applyCommand (Command.appendChar cp)).currentBuffer.cursor.position.column
        = s.currentBuffer.size.columns ∧
      (s.applyCommand (Command.appendChar cp)).currentBuffer.cursor.autoWrapPending
        = true) ∧
    ((s.applyCommand (Command.appendChar cp)).applyCommand
        (Command.appendChar cp2)).currentBuffer.cursor.position.row
      = s.currentBuffer.cursor.position.row + 1 := by
  have e1 : (s.applyCommand (Command.appendChar cp)).currentBuffer
      = s.currentBuffer.appendChar cp := currentBuffer_modifyBuffer s _
  have h1 : s.currentBuffer.wrapPending = s.currentBuffer := by
    unfold ScreenBuffer.wrapPending
    rw [if_neg (by simp [hpend])]
  have h2 : ScreenBuffer.fitWide (charWidth cp) s.currentBuffer = s.currentBuffer := by
    unfold ScreenBuffer.fitWide
    rw [if_pos hfit]
  have hs1 : s.currentBuffer.appendChar cp
      = ScreenBuffer.advanceCursor (charWidth cp)
          (ScreenBuffer.writeChar cp (charWidth cp) s.currentBuffer) := by
    unfold ScreenBuffer.appendChar
    rw [h1, h2]
  have hcondBW : (ScreenBuffer.writeChar cp (charWidth cp)
        s.currentBuffer).cursor.position.column + charWidth cp
      > (ScreenBuffer.writeChar cp (charWidth cp) s.currentBuffer).size.columns := by
    rw [ScreenBuffer.writeChar_cursor, ScreenBuffer.writeChar_size]
    exact hpast
  have hA : ScreenBuffer.advanceCursor (charWidth cp)
        (ScreenBuffer.writeChar cp (charWidth cp) s.currentBuffer)
      = { ScreenBuffer.writeChar cp (charWidth cp) s.currentBuffer with
          cursor := { (ScreenBuffer.writeChar cp (charWidth cp) s.currentBuffer).cursor with
            position := ⟨(ScreenBuffer.writeChar cp (charWidth cp)
                s.currentBuffer).cursor.position.row,
              (ScreenBuffer.writeChar cp (charWidth cp) s.currentBuffer).size.columns⟩
            autoWrapPending := (ScreenBuffer.writeChar cp (charWidth cp)
              s.currentBuffer).modeSet Mode.autoWrap } } := by
    unfold ScreenBuffer.advanceCursor
    rw [if_pos hcondBW]
  have hAmode : ∀ m, (ScreenBuffer.writeChar cp (charWidth cp) s.currentBuffer).modeSet m
      = s.currentBuffer.modeSet m :=
    modeSet_congr (ScreenBuffer.writeChar_modes cp (charWidth cp) s.currentBuffer)
  refine ⟨⟨?_, ?_, ?_⟩, ?_⟩
  · rw [e1, hs1, hA]
    show (ScreenBuffer.writeChar cp (charWidth cp) s.currentBuffer).cursor.position.row
      = s.currentBuffer.cursor.position.row
    rw [ScreenBuffer.writeChar_cursor]
  · rw [e1, hs1, hA]
    show (ScreenBuffer.writeChar cp (charWidth cp) s.currentBuffer).size.columns
      = s.currentBuffer.size.columns
    rw [ScreenBuffer.writeChar_size]
  · rw [e1, hs1, hA]
    show (ScreenBuffer.writeChar cp (charWidth cp) s.currentBuffer).modeSet Mode.autoWrap
      = true
    rw [hAmode]
    exact hauto
  · have e2 : ((s.applyCommand (Command.appendChar cp)).applyCommand
        (Command.appendChar cp2)).currentBuffer
        = ((s.applyCommand (Command.appendChar cp)).currentBuffer).appendChar cp2 :=
      currentBuffer_modifyBuffer _ _
    rw [e2, e1, hs1, hA]
    generalize hBW : ScreenBuffer.writeChar cp (charWidth cp) s.currentBuffer = BW at *
    have hBWrow : BW.cursor.position.row = s.currentBuffer.cursor.position.row := by
      rw [← hBW, ScreenBuffer.writeChar_cursor]
    have hBWmargin : BW.margin = s.currentBuffer.margin := by
      rw [← hBW, ScreenBuffer.writeChar_margin]
    have hBWsize : BW.size = s.currentBuffer.size := by
      rw [← hBW, ScreenBuffer.writeChar_size]
    set A : ScreenBuffer := { BW with
      cursor := { BW.cursor with
        position := ⟨BW.cursor.position.row, BW.size.columns⟩
        autoWrapPending := BW.modeSet Mode.autoWrap } } with hAdef
    have hApend : A.cursor.autoWrapPending = true := by
      show BW.modeSet Mode.autoWrap = true
      rw [hAmode]
      exact hauto
    have hAauto : A.modeSet Mode.autoWrap = true := by
      show BW.modeSet Mode.autoWrap = true
      rw [hAmode]
      exact hauto
    have hstage1 : A.wrapPending = A.wrapToNextLine := by
      unfold ScreenBuffer.wrapPending
      rw [if_pos ⟨hApend, hAauto⟩]
    have hArow : A.cursor.position.row = s.currentBuffer.cursor.position.row := by
      show BW.cursor.position.row = _
      exact hBWrow
    have hAmargin : A.margin = s.currentBuffer.margin := hBWmargin
    have hAsize : A.size = s.currentBuffer.size := hBWsize
    have hnotbot : ¬ A.cursor.position.row = A.margin.bottom := by
      rw [hArow, hAmargin]
      omega
    have hstage1b : A.wrapToNextLine = { A with
        cursor := { A.cursor with
          position := ⟨min (A.cursor.position.row + 1) A.size.rows, 1⟩
          autoWrapPending := false } } := by
      unfold ScreenBuffer.wrapToNextLine
      rw [if_neg hnotbot]
    have hrowval : min (A.cursor.position.row + 1) A.size.rows
        = s.currentBuffer.cursor.position.row + 1 := by
      rw [hArow, hAsize]
      omega
    set C : ScreenBuffer := { A with
      cursor := { A.cursor with
        position := ⟨min (A.cursor.position.row + 1) A.size.rows, 1⟩
        autoWrapPending := false } } with hCdef
    have hstage2 : ScreenBuffer.fitWide (charWidth cp2) C = C := by
      unfold ScreenBuffer.fitWide
      rw [if_pos]
      show (1 : Nat) + charWidth cp2 - 1 ≤ C.size.columns
      have : C.size.columns = s.currentBuffer.size.columns := by
        show BW.size.columns = _
        rw [hBWsize]
      omega
    have happ : A.appendChar cp2
        = ScreenBuffer.advanceCursor (charWidth cp2)
            (ScreenBuffer.writeChar cp2 (charWidth cp2) C) := by
      unfold ScreenBuffer.appendChar
      rw [hstage1, hstage1b, hstage2]
    show (A.appendChar cp2).cursor.position.row = _
    rw [happ, ScreenBuffer.advanceCursor_row, ScreenBuffer.writeChar_cursor]
    show min (A.cursor.position.row + 1) A.size.rows = _
    rw [hrowval]

/-- Witness for C4 on a 3×2 screen: after writing at the last column the
pending flag is set, and the next character lands on row 2. -/
theorem last_column_pending_wrap_witness :
    (((Screen.initScreen ⟨3, 2⟩ none false).applyCommand
        (Command.moveCursorTo 1 3)).applyCommand
        (Command.appendChar 0x41)).currentBuffer.cursor.autoWrapPending = true ∧
    ((((Screen.initScreen ⟨3, 2⟩ none false).applyCommand
        (Command.moveCursorTo 1 3)).applyCommand
        (Command.appendChar 0x41)).applyCommand
        (Command.appendChar 0x42)).currentBuffer.cursor.position.row = 2 := by
  have h := last_column_pending_wrap
    ((Screen.initScreen ⟨3, 2⟩ none false).applyCommand (Command.moveCursorTo 1 3))
    0x41 0x42 (by decide) (by decide) (by decide) (by decide) (by decide) (by decide)
    (by decide) (by decide)
  exact ⟨h.1.2.2, h.2.trans (by decide)⟩

/-- C5: in every reachable state the cursor satisfies
`1 ≤ row ≤ size.rows` and `1 ≤ column ≤ size.columns` (equivalently,
`Screen::contains` holds at the cursor), and under Origin mode the cursor
additionally lies within the margin region. -/
theorem cursor_bounds_invariant (s : Screen) (h : Reachable s) :
    (1 ≤ s.currentBuffer.cursor.position.row ∧
      s.currentBuffer.cursor.position.row ≤ s.size_.rows ∧
      1 ≤ s.currentBuffer.cursor.position.column ∧
      s.currentBuffer.cursor.position.column ≤ s.size_.columns) ∧
    s.contains s.currentBuffer.cursor.position = true ∧
    (s.currentBuffer.modeSet Mode.origin = true →
      s.currentBuffer.margin.top ≤ s.currentBuffer.cursor.position.row ∧
      s.currentBuffer.cursor.position.row ≤ s.currentBuffer.margin.bottom) := by
  obtain ⟨hb, hsz⟩ := currentBuffer_inv (reachable_inv h)
  refine ⟨⟨hb.cursorRowPos, hsz ▸ hb.cursorRowLe, hb.cursorColPos, hsz ▸ hb.cursorColLe⟩,
    ?_, hb.originRow⟩
  unfold Screen.contains
  simp only [decide_eq_true_eq]
  exact ⟨hb.cursorRowPos, hsz ▸ hb.cursorRowLe, hb.cursorColPos, hsz ▸ hb.cursorColLe⟩

/-- Witness for C5 at a freshly constructed 80×24 screen. -/
theorem cursor_bounds_invariant_witness :
    (Screen.initScreen ⟨80, 24⟩ none false).contains
      (Screen.initScreen ⟨80, 24⟩ none false).currentBuffer.cursor.position = true :=
  (cursor_bounds_invariant (Screen.initScreen ⟨80, 24⟩ none false)
    (Reachable.init ⟨80, 24⟩ none false (by decide) (by decide))).2.1

/-- C6: when `maxHistoryLineCount` is set, every reachable state keeps the
scrollback length within the bound; and when the history is full and a line
is scrolled off the top of a primary screen, exactly the oldest history
line is evicted — the new scrollback is the old one minus its first (oldest)
line, plus the newly scrolled-out line. -/
theorem scrollback_bound :
    (∀ (s : Screen), Reachable s → ∀ m, s.currentBuffer.maxHistoryLineCount = some m →
      s.historyLineCount ≤ m) ∧
    (∀ (s : Screen) (m : Nat), Reachable s →
      s.currentBuffer.maxHistoryLineCount = some m →
      s.currentBuffer.margin.top = 1 →
      s.bufferType = ScreenBufferType.primary →
      s.currentBuffer.savedLines.length = m →
      1 ≤ m →
      (s.applyCommand (Command.scrollUp 1)).currentBuffer.savedLines
        = s.currentBuffer.savedLines.drop 1 ++ s.currentBuffer.lines.take 1) := by
  constructor
  · intro s h m hm
    obtain ⟨hb, _⟩ := currentBuffer_inv (reachable_inv h)
    exact hb.history m hm
  · intro s m h hmax ht htype hlen hm
    have hs := reachable_inv h
    obtain ⟨hb, hsz⟩ := currentBuffer_inv hs
    have hbt : 1 ≤ s.currentBuffer.margin.bottom :=
      le_trans hb.marginTopPos hb.marginOrder
    have hrows : 1 ≤ s.currentBuffer.lines.length := by
      rw [hb.linesLen]; exact hb.rowsPos
    have htype' : s.currentBuffer.type = ScreenBufferType.primary := by
      unfold Screen.currentBuffer
      rw [htype]
      exact hs.primType
    have e : (s.applyCommand (Command.scrollUp 1)).currentBuffer
        = s.currentBuffer.scrollUpN 1 := currentBuffer_modifyBuffer s _
    rw [e]
    simp only [ScreenBuffer.scrollUpN]
    rw [if_pos ⟨ht, htype'⟩, ht]
    rw [show (1 : Nat) - 1 = 0 from rfl, List.drop_zero]
    rw [show s.currentBuffer.margin.bottom + 1 - 1 = s.currentBuffer.margin.bottom
      from by omega]
    rw [show min 1 s.currentBuffer.margin.bottom = 1 from by omega]
    rw [show (s.currentBuffer.lines.take s.currentBuffer.margin.bottom).take 1
        = s.currentBuffer.lines.take 1 from by
      rw [List.take_take]
      congr 1
      omega]
    rw [hmax]
    show (s.currentBuffer.savedLines ++ s.currentBuffer.lines.take 1).drop
        ((s.currentBuffer.savedLines ++ s.currentBuffer.lines.take 1).length - m) = _
    rw [show (s.currentBuffer.savedLines ++ s.currentBuffer.lines.take 1).length - m = 1
      from by
        rw [List.length_append, hlen, List.length_take]
        omega]
    exact List.drop_append_of_le_length (by omega)

/-- Witness for C6: on a 2×2 screen with a one-line history bound, scrolling
twice keeps the bound and the second scroll evicts the oldest line. -/
theorem scrollback_bound_witness :
    ((Screen.initScreen ⟨2, 2⟩ (some 1) false).applyCommand
        (Command.scrollUp 1)).historyLineCount ≤ 1 ∧
    (((Screen.initScreen ⟨2, 2⟩ (some 1) false).applyCommand
        (Command.scrollUp 1)).applyCommand (Command.scrollUp 1)).currentBuffer.savedLines
      = ((Screen.initScreen ⟨2, 2⟩ (some 1) false).applyCommand
          (Command.scrollUp 1)).currentBuffer.savedLines.drop 1
        ++ ((Screen.initScreen ⟨2, 2⟩ (some 1) false).applyCommand
            (Command.scrollUp 1)).currentBuffer.lines.take 1 := by
  constructor
  · exact scrollback_bound.1 _
      (Reachable.command (Command.scrollUp 1)
        (Reachable.init ⟨2, 2⟩ (some 1) false (by decide) (by decide))) 1 (by decide)
  · exact scrollback_bound.2 _ 1
      (Reachable.command (Command.scrollUp 1)
        (Reachable.init ⟨2, 2⟩ (some 1) false (by decide) (by decide)))
      (by decide) (by decide) (by decide) (by decide) (by decide)

theorem walkCols_length (r : Nat) :
    ∀ (cells : List Cell) (c : Nat), (walkCols r c cells).length = cells.length := by
  intro cells
  induction cells with
  | nil => intro c; rfl
  | cons x xs ih =>
    intro c
    show (walkCols r (c + 1) xs).length + 1 = xs.length + 1
    rw [ih]

theorem walkCols_coords (r : Nat) :
    ∀ (cells : List Cell) (c : Nat),
      (walkCols r c cells).map (fun t => (t.1, t.2.1))
        = (List.range cells.length).map (fun i => (r, c + i)) := by
  intro cells
  induction cells with
  | nil => intro c; rfl
  | cons x xs ih =>
    intro c
    show (r, c) :: (walkCols r (c + 1) xs).map (fun t => (t.1, t.2.1)) = _
    rw [ih]
    show _ = (List.range (xs.length + 1)).map (fun i => (r, c + i))
    rw [List.range_succ_eq_map, List.map_cons, List.map_map]
    refine congrArg₂ _ (by rw [Nat.add_zero]) ?_
    refine List.map_congr_left ?_
    intro a _
    exact congrArg (fun n => (r, n)) (by omega)

theorem walkRows_length :
    ∀ (L : List Line) (r cols : Nat), (∀ l ∈ L, l.cells.length = cols) →
      (walkRows r L).length = L.length * cols := by
  intro L
  induction L with
  | nil => intro r cols _; simp [walkRows]
  | cons l L' ih =>
    intro r cols hw
    show (walkCols r 1 l.cells ++ walkRows (r + 1) L').length = _
    rw [List.length_append, walkCols_length, hw l (List.mem_cons_self l L'),
      ih (r + 1) cols (fun x hx => hw x (List.mem_cons_of_mem l hx))]
    rw [List.length_cons]
    ring

theorem flatMap_map_list {α β γ : Type} (l : List α) (g : α → β) (f : β → List γ) :
    (l.map g).flatMap f = l.flatMap (fun x => f (g x)) := by
  induction l with
  | nil => rfl
  | cons x xs ih => simp only [List.map_cons, List.flatMap_cons, ih]

theorem walkRows_coords :
    ∀ (L : List Line) (r cols : Nat), (∀ l ∈ L, l.cells.length = cols) →
      (walkRows r L).map (fun t => (t.1, t.2.1))
        = (List.range L.length).flatMap
            (fun i => (List.range cols).map (fun c => (r + i, c + 1))) := by
  intro L
  induction L with
  | nil => intro r cols _; rfl
  | cons l L' ih =>
    intro r cols hw
    show (walkCols r 1 l.cells ++ walkRows (r + 1) L').map (fun t => (t.1, t.2.1)) = _
    rw [List.map_append, walkCols_coords, hw l (List.mem_cons_self l L'),
      ih (r + 1) cols (fun x hx => hw x (List.mem_cons_of_mem l hx))]
    rw [List.length_cons, List.range_succ_eq_map, List.flatMap_cons, flatMap_map_list]
    refine congrArg₂ _ ?_ ?_
    · refine List.map_congr_left ?_
      intro a _
      show (r, 1 + a) = (r + 0, a + 1)
      exact congrArg₂ Prod.mk (by omega) (by omega)
    · refine List.flatMap_congr ?_
      intro i _
      refine List.map_congr_left ?_
      intro c _
      exact congrArg (fun n => (n, c + 1)) (by omega)

theorem visibleLines_length {b : ScreenBuffer} (off : Nat)
    (hlen : b.lines.length = b.size.rows) :
    (visibleLines b off).length = b.size.rows := by
  unfold visibleLines
  rw [List.length_take, List.length_append, List.length_drop]
  omega

theorem visibleLines_mem {b : ScreenBuffer} {off : Nat} {l : Line}
    (hl : l ∈ visibleLines b off) : l ∈ b.savedLines ∨ l ∈ b.lines := by
  unfold visibleLines at hl
  rcases List.mem_append.mp ((List.take_sublist _ _).mem hl) with h | h
  · exact Or.inl ((List.drop_sublist _ _).mem h)
  · exact Or.inr h

/-- C3: in every reachable state and at every scroll offset, `render`
invokes the callback exactly `rows × columns` times, and the sequence of
`(row, column)` arguments is exactly the row-major enumeration of the
visible cells. -/
theorem render_walk_count (s : Screen) (h : Reachable s) (off : Nat) :
    (s.render off).length = s.size_.rows * s.size_.columns ∧
    (s.render off).map (fun t => (t.1, t.2.1))
      = (List.range s.size_.rows).flatMap
          (fun r => (List.range s.size_.columns).map (fun c => (r + 1, c + 1))) := by
  obtain ⟨hb, hsz⟩ := currentBuffer_inv (reachable_inv h)
  have hwidths : ∀ l ∈ visibleLines s.currentBuffer off,
      l.cells.length = s.size_.columns := by
    intro l hl
    rcases visibleLines_mem hl with hm | hm
    · exact hsz ▸ (hb.savedWF l hm).1
    · exact hsz ▸ (hb.linesWF l hm).1
  have hvlen : (visibleLines s.currentBuffer off).length = s.size_.rows := by
    rw [visibleLines_length off hb.linesLen, hsz]
  constructor
  · show (walkRows 1 (visibleLines s.currentBuffer off)).length = _
    rw [walkRows_length _ 1 s.size_.columns hwidths, hvlen]
  · show (walkRows 1 (visibleLines s.currentBuffer off)).map (fun t => (t.1, t.2.1)) = _
    rw [walkRows_coords _ 1 s.size_.columns hwidths, hvlen]
    refine List.flatMap_congr ?_
    intro i _
    refine List.map_congr_left ?_
    intro c _
    exact congrArg (fun n => (n, c + 1)) (by omega)

/-- Witness for C3 at a freshly constructed 3×2 screen and offset 0. -/
theorem render_walk_count_witness :
    ((Screen.initScreen ⟨3, 2⟩ none false).render 0).length = 2 * 3 ∧
    ((Screen.initScreen ⟨3, 2⟩ none false).render 0).map (fun t => (t.1, t.2.1))
      = [(1, 1), (1, 2), (1, 3), (2, 1), (2, 2), (2, 3)] := by
  have h := render_walk_count (Screen.initScreen ⟨3, 2⟩ none false)
    (Reachable.init ⟨3, 2⟩ none false (by decide) (by decide)) 0
  exact ⟨h.1.trans (by decide), h.2.trans (by decide)⟩

/-! ### Screenshot replay lemmas (claim C2) -/

/-- The SGR sequence emitted for a cell re-establishes exactly that cell's
rendition from any starting rendition. -/
theorem sgr_restore (a r0 : GraphicsAttributes) :
    (sgrOfAttrs a).foldl applySgr r0 = a := by
  rcases a with ⟨fg, bg, bo, un, inv⟩
  cases bo <;> cases un <;> cases inv <;> rfl

theorem cell_eta_narrow {x : Cell} (hw : x.width = 1) :
    Cell.mk x.codepoint 1 x.attributes = x := by
  rw [← hw]

theorem cell_eta_wide {x : Cell} (hw : x.width = 2) :
    Cell.mk x.codepoint 2 x.attributes = x := by
  rw [← hw]

/-- Replaying a narrow character over the blank cell at the cursor: the
exact effect of `appendChar` in the replay configuration. -/
theorem appendChar_replay_narrow (b : ScreenBuffer) (cp : Nat)
    (A B : List Line) (P Q : List Cell) (w0 : Bool)
    (hcw : charWidth cp = 1)
    (hlines : b.lines = A ++ Line.mk (P ++ blankCell :: Q) w0 :: B)
    (hrow : b.cursor.position.row = A.length + 1)
    (hcol : b.cursor.position.column = P.length + 1)
    (hpend : b.cursor.autoWrapPending = false)
    (hwfP : wfScan none P = some none)
    (hcols : P.length + 1 + Q.length = b.size.columns) :
    b.appendChar cp = { b with
      lines := A ++ Line.mk (P ++ Cell.mk cp 1 b.cursor.graphicsRendition :: Q) w0 :: B
      cursor := { b.cursor with
        position := ⟨b.cursor.position.row,
          if Q.length = 0 then b.size.columns else P.length + 2⟩
        autoWrapPending :=
          if Q.length = 0 then b.modeSet Mode.autoWrap else false } } := by
  have h1 : b.wrapPending = b := by
    unfold ScreenBuffer.wrapPending
    rw [if_neg (by simp [hpend])]
  have h2 : ScreenBuffer.fitWide (charWidth cp) b = b := by
    unfold ScreenBuffer.fitWide
    rw [if_pos (by rw [hcw, hcol]; omega)]
  have h3 : ScreenBuffer.writeChar cp (charWidth cp) b = { b with
      lines := A ++ Line.mk (P ++ Cell.mk cp 1 b.cursor.graphicsRendition :: Q) w0 :: B } := by
    unfold ScreenBuffer.writeChar
    rw [if_neg (by omega)]
    unfold ScreenBuffer.modifyCursorLine
    rw [hlines, hrow, hcol]
    dsimp only
    rw [show A.length + 1 - 1 = A.length from by omega, modifyAt_append]
    dsimp only
    rw [show P.length + 1 - 1 = P.length from by omega,
      putRow_append _ _ P none hwfP, putRow_blank_head, hcw]
  unfold ScreenBuffer.appendChar
  rw [h1, h2, h3]
  unfold ScreenBuffer.advanceCursor
  dsimp only
  rw [hcol, hcw]
  by_cases hq : Q.length = 0
  · rw [if_pos (show P.length + 1 + 1 > b.size.columns from by omega)]
    rw [if_pos hq, if_pos hq]
    rfl
  · rw [if_neg (show ¬ (P.length + 1 + 1 > b.size.columns) from by omega)]
    rw [if_neg hq, if_neg hq]

/-- Replaying a wide character over the two blank cells at the cursor. -/
theorem appendChar_replay_wide (b : ScreenBuffer) (cp : Nat)
    (A B : List Line) (P Q : List Cell) (w0 : Bool)
    (hcw : charWidth cp = 2)
    (hlines : b.lines = A ++ Line.mk (P ++ blankCell :: blankCell :: Q) w0 :: B)
    (hrow : b.cursor.position.row = A.length + 1)
    (hcol : b.cursor.position.column = P.length + 1)
    (hpend : b.cursor.autoWrapPending = false)
    (hwfP : wfScan none P = some none)
    (hcols : P.length + 2 + Q.length = b.size.columns) :
    b.appendChar cp = { b with
      lines := A ++ Line.mk (P ++ Cell.mk cp 2 b.cursor.graphicsRendition
        :: trailingCell b.cursor.graphicsRendition :: Q) w0 :: B
      cursor := { b.cursor with
        position := ⟨b.cursor.position.row,
          if Q.length = 0 then b.size.columns else P.length + 3⟩
        autoWrapPending :=
          if Q.length = 0 then b.modeSet Mode.autoWrap else false } } := by
  have h1 : b.wrapPending = b := by
    unfold ScreenBuffer.wrapPending
    rw [if_neg (by simp [hpend])]
  have h2 : ScreenBuffer.fitWide (charWidth cp) b = b := by
    unfold ScreenBuffer.fitWide
    rw [if_pos (by rw [hcw, hcol]; omega)]
  have h3 : ScreenBuffer.writeChar cp (charWidth cp) b = { b with
      lines := A ++ Line.mk (P ++ Cell.mk cp 2 b.cursor.graphicsRendition
        :: trailingCell b.cursor.graphicsRendition :: Q) w0 :: B } := by
    unfold ScreenBuffer.writeChar
    rw [if_pos hcw]
    unfold ScreenBuffer.modifyCursorLine
    rw [hlines, hrow, hcol]
    dsimp only
    rw [show A.length + 1 - 1 = A.length from by omega, modifyAt_append]
    dsimp only
    rw [show P.length + 1 - 1 = P.length from by omega,
      putRow2_append _ _ _ P none hwfP, putRow2_blank_head]
  unfold ScreenBuffer.appendChar
  rw [h1, h2, h3]
  unfold ScreenBuffer.advanceCursor
  dsimp only
  rw [hcol, hcw]
  by_cases hq : Q.length = 0
  · rw [if_pos (show P.length + 1 + 2 > b.size.columns from by omega)]
    rw [if_pos hq, if_pos hq]
    rfl
  · rw [if_neg (show ¬ (P.length + 1 + 2 > b.size.columns) from by omega)]
    rw [if_neg hq, if_neg hq]


/-- `modifyBuffer` on a screen whose active buffer is the primary one. -/
theorem modifyBuffer_primary {t : Screen} (h : t.bufferType = ScreenBufferType.primary)
    (f : ScreenBuffer → ScreenBuffer) :
    t.modifyBuffer f = { t with primaryBuffer := f t.primaryBuffer } := by
  unfold Screen.modifyBuffer
  rw [h]

theorem modifyBuffer_modifyBuffer (s : Screen) (f g : ScreenBuffer → ScreenBuffer) :
    (s.modifyBuffer f).modifyBuffer g = s.modifyBuffer (fun b => g (f b)) := by
  cases hb : s.bufferType <;> simp [Screen.modifyBuffer, hb]

/-- `currentBuffer` on a screen whose active buffer is the primary one. -/
theorem currentBuffer_primary {t : Screen} (h : t.bufferType = ScreenBufferType.primary) :
    t.currentBuffer = t.primaryBuffer := by
  unfold Screen.currentBuffer
  rw [h]

theorem writeCommands_cons (s : Screen) (c : Command) (cs : List Command) :
    s.writeCommands (c :: cs) = (s.applyCommand c).writeCommands cs := rfl

theorem writeCommands_nil (s : Screen) : s.writeCommands [] = s := rfl

theorem writeCommands_append (s : Screen) (cs ds : List Command) :
    s.writeCommands (cs ++ ds) = (s.writeCommands cs).writeCommands ds := by
  simp [Screen.writeCommands, List.foldl_append]

theorem applyCommand_sgr (s : Screen) (items : List SgrItem) :
    s.applyCommand (Command.setGraphicsRendition items)
      = s.modifyBuffer (fun b => { b with cursor := { b.cursor with
          graphicsRendition := items.foldl applySgr b.cursor.graphicsRendition } }) := rfl

theorem applyCommand_appendChar (s : Screen) (cp : Nat) :
    s.applyCommand (Command.appendChar cp)
      = s.modifyBuffer (fun b => b.appendChar cp) := rfl

theorem applyCommand_moveCursorTo (s : Screen) (r c : Nat) :
    s.applyCommand (Command.moveCursorTo r c)
      = s.modifyBuffer (fun b => b.moveCursorTo r c) := rfl

theorem applyCommand_clearScreen (s : Screen) :
    s.applyCommand Command.clearScreen
      = s.modifyBuffer ScreenBuffer.clearScreen := rfl

/-- Exact effect of `MoveCursorTo` when origin mode is off and the target
is in range. -/
theorem moveCursorTo_exact {b : ScreenBuffer} (r c : Nat)
    (horig : b.modeSet Mode.origin = false)
    (hr1 : 1 ≤ r) (hr2 : r ≤ b.size.rows) (hc1 : 1 ≤ c) (hc2 : c ≤ b.size.columns) :
    b.moveCursorTo r c
      = { b with cursor := ⟨⟨r, c⟩, b.cursor.graphicsRendition, false⟩ } := by
  simp only [ScreenBuffer.moveCursorTo,
    if_neg (show ¬ (b.modeSet Mode.origin = true) from by simp [horig])]
  have h1 : min (max r 1) b.size.rows = r := by omega
  have h2 : min (max c 1) b.size.columns = c := by omega
  rw [h1, h2]

/-- Replaying the commands `screenshot` emits for the tail of a row writes
exactly those cells over the blanks at the cursor and parks the cursor at
the right margin with the autowrap state of a just-filled line. -/
theorem emitCells_replay :
    ∀ (n : Nat) (cs : List Cell) (t : Screen) (A B : List Line) (P : List Cell) (w0 : Bool),
      cs.length = n → cs ≠ [] →
      t.bufferType = ScreenBufferType.primary →
      t.primaryBuffer.lines
        = A ++ Line.mk (P ++ List.replicate cs.length blankCell) w0 :: B →
      t.primaryBuffer.cursor.position.row = A.length + 1 →
      t.primaryBuffer.cursor.position.column = P.length + 1 →
      t.primaryBuffer.cursor.autoWrapPending = false →
      wfScan none P = some none →
      wfScan none cs = some none →
      P.length + cs.length = t.primaryBuffer.size.columns →
      ∃ g, t.writeCommands (emitCells cs)
        = { t with primaryBuffer := { t.primaryBuffer with
            lines := A ++ Line.mk (P ++ cs) w0 :: B
            cursor := ⟨⟨A.length + 1, t.primaryBuffer.size.columns⟩, g,
              t.primaryBuffer.modeSet Mode.autoWrap⟩ } } := by
  intro n
  induction n using Nat.strong_induction_on with
  | _ n ih =>
  intro cs t A B P w0 hn hne hbt hlines hrow hcol hpend hwfP hwfcs hcols
  cases cs with
  | nil => exact absurd rfl hne
  | cons c rest =>
  rw [List.length_cons] at hn hcols
  rw [List.length_cons, List.replicate_succ] at hlines
  rcases wfScan_none_cons_inv hwfcs with ⟨hw, hcw, hwfr⟩ | ⟨hw, hcw, cs2, hrest, hwfr⟩
  · -- narrow head cell
    have hcmds : emitCells (c :: rest)
        = Command.setGraphicsRendition (sgrOfAttrs c.attributes)
          :: Command.appendChar c.codepoint :: emitCells rest := by
      simp [emitCells, hw]
    have hb1 := appendChar_replay_narrow
      { t.primaryBuffer with cursor := { t.primaryBuffer.cursor with
          graphicsRendition := c.attributes } }
      c.codepoint A B P (List.replicate rest.length blankCell) w0 hcw
      hlines hrow hcol hpend hwfP
      (by show P.length + 1 + (List.replicate rest.length blankCell).length
            = t.primaryBuffer.size.columns
          simp only [List.length_replicate]
          omega)
    dsimp only at hb1
    simp only [List.length_replicate] at hb1
    rw [cell_eta_narrow hw] at hb1
    have hstep : (t.applyCommand (Command.setGraphicsRendition
          (sgrOfAttrs c.attributes))).applyCommand (Command.appendChar c.codepoint)
        = { t with primaryBuffer := { t.primaryBuffer with
            lines := A ++ Line.mk (P ++ c :: List.replicate rest.length blankCell) w0 :: B
            cursor := ⟨⟨t.primaryBuffer.cursor.position.row,
                if rest.length = 0 then t.primaryBuffer.size.columns
                else P.length + 2⟩,
              c.attributes,
              if rest.length = 0 then t.primaryBuffer.modeSet Mode.autoWrap
              else false⟩ } } := by
      rw [applyCommand_sgr, applyCommand_appendChar, modifyBuffer_modifyBuffer,
        modifyBuffer_primary hbt]
      dsimp only
      rw [sgr_restore, hb1]
      rfl
    by_cases hr : rest = []
    · subst hr
      refine ⟨c.attributes, ?_⟩
      rw [hcmds, writeCommands_cons, writeCommands_cons, hstep, hrow]
      rfl
    · have hrl : rest.length ≠ 0 := fun h0 => hr (List.eq_nil_of_length_eq_zero h0)
      rw [if_neg hrl, if_neg hrl] at hstep
      have hwfP2 : wfScan none (P ++ [c]) = some none := by
        rw [wfScan_append, hwfP]
        show wfScan none [c] = some none
        rw [wfScan_cons_narrow hw hcw]
        rfl
      obtain ⟨g, hg⟩ := ih rest.length (by omega) rest
        { t with primaryBuffer := { t.primaryBuffer with
            lines := A ++ Line.mk (P ++ c :: List.replicate rest.length blankCell) w0 :: B
            cursor := ⟨⟨t.primaryBuffer.cursor.position.row, P.length + 2⟩,
              c.attributes, false⟩ } }
        A B (P ++ [c]) w0 rfl hr hbt
        (by show (A ++ Line.mk (P ++ c :: List.replicate rest.length blankCell) w0 :: B
              : List Line)
            = A ++ Line.mk ((P ++ [c]) ++ List.replicate rest.length blankCell) w0 :: B
            rw [List.append_assoc]
            rfl)
        hrow
        (by show P.length + 2 = (P ++ [c]).length + 1
            simp)
        rfl hwfP2 hwfr
        (by show (P ++ [c]).length + rest.length = t.primaryBuffer.size.columns
            simp only [List.length_append, List.length_cons, List.length_nil]
            omega)
      refine ⟨g, ?_⟩
      rw [hcmds, writeCommands_cons, writeCommands_cons, hstep]
      exact hg.trans (by rw [List.append_assoc]; rfl)
  · -- wide head cell followed by its trailing half
    subst hrest
    rw [List.length_cons] at hn hcols
    rw [List.length_cons, List.replicate_succ] at hlines
    have hcmds : emitCells (c :: trailingCell c.attributes :: cs2)
        = Command.setGraphicsRendition (sgrOfAttrs c.attributes)
          :: Command.appendChar c.codepoint :: emitCells cs2 := by
      simp [emitCells, trailingCell, hw]
    have hb1 := appendChar_replay_wide
      { t.primaryBuffer with cursor := { t.primaryBuffer.cursor with
          graphicsRendition := c.attributes } }
      c.codepoint A B P (List.replicate cs2.length blankCell) w0 hcw
      hlines hrow hcol hpend hwfP
      (by show P.length + 2 + (List.replicate cs2.length blankCell).length
            = t.primaryBuffer.size.columns
          simp only [List.length_replicate]
          omega)
    dsimp only at hb1
    simp only [List.length_replicate] at hb1
    rw [cell_eta_wide hw] at hb1
    have hstep : (t.applyCommand (Command.setGraphicsRendition
          (sgrOfAttrs c.attributes))).applyCommand (Command.appendChar c.codepoint)
        = { t with primaryBuffer := { t.primaryBuffer with
            lines := A ++ Line.mk (P ++ c :: trailingCell c.attributes
              :: List.replicate cs2.length blankCell) w0 :: B
            cursor := ⟨⟨t.primaryBuffer.cursor.position.row,
                if cs2.length = 0 then t.primaryBuffer.size.columns
                else P.length + 3⟩,
              c.attributes,
              if cs2.length = 0 then t.primaryBuffer.modeSet Mode.autoWrap
              else false⟩ } } := by
      rw [applyCommand_sgr, applyCommand_appendChar, modifyBuffer_modifyBuffer,
        modifyBuffer_primary hbt]
      dsimp only
      rw [sgr_restore, hb1]
      rfl
    by_cases hr : cs2 = []
    · subst hr
      refine ⟨c.attributes, ?_⟩
      rw [hcmds, writeCommands_cons, writeCommands_cons, hstep, hrow]
      rfl
    · have hrl : cs2.length ≠ 0 := fun h0 => hr (List.eq_nil_of_length_eq_zero h0)
      rw [if_neg hrl, if_neg hrl] at hstep
      have hwfP2 : wfScan none (P ++ [c, trailingCell c.attributes]) = some none := by
        rw [wfScan_append, hwfP]
        show wfScan none [c, trailingCell c.attributes] = some none
        rw [wfScan_cons_leader hw hcw, wfScan_cons_trailer]
        rfl
      obtain ⟨g, hg⟩ := ih cs2.length (by omega) cs2
        { t with primaryBuffer := { t.primaryBuffer with
            lines := A ++ Line.mk (P ++ c :: trailingCell c.attributes
              :: List.replicate cs2.length blankCell) w0 :: B
            cursor := ⟨⟨t.primaryBuffer.cursor.position.row, P.length + 3⟩,
              c.attributes, false⟩ } }
        A B (P ++ [c, trailingCell c.attributes]) w0 rfl hr hbt
        (by show (A ++ Line.mk (P ++ c :: trailingCell c.attributes
              :: List.replicate cs2.length blankCell) w0 :: B : List Line)
            = A ++ Line.mk ((P ++ [c, trailingCell c.attributes])
                ++ List.replicate cs2.length blankCell) w0 :: B
            rw [List.append_assoc]
            rfl)
        hrow
        (by show P.length + 3 = (P ++ [c, trailingCell c.attributes]).length + 1
            simp)
        rfl hwfP2 hwfr
        (by show (P ++ [c, trailingCell c.attributes]).length + cs2.length
              = t.primaryBuffer.size.columns
            simp only [List.length_append, List.length_cons, List.length_nil]
            omega)
      refine ⟨g, ?_⟩
      rw [hcmds, writeCommands_cons, writeCommands_cons, hstep]
      exact hg.trans (by rw [List.append_assoc]; rfl)

/-- Replaying the per-row screenshot emission overwrites the remaining
blank rows with the original rows' cells (soft-wrap flags reset). -/
theorem emitRows_replay :
    ∀ (L : List Line) (t : Screen) (A : List Line),
      t.bufferType = ScreenBufferType.primary →
      t.primaryBuffer.modeSet Mode.origin = false →
      t.primaryBuffer.lines
        = A ++ List.replicate L.length (blankLine t.primaryBuffer.size.columns) →
      A.length + L.length = t.primaryBuffer.size.rows →
      1 ≤ t.primaryBuffer.size.columns →
      (∀ l ∈ L, l.cells.length = t.primaryBuffer.size.columns ∧ wfRow l.cells) →
      ∃ cur, t.writeCommands (emitRows (A.length + 1) L)
        = { t with primaryBuffer := { t.primaryBuffer with
            lines := A ++ L.map (fun l => Line.mk l.cells false)
            cursor := cur } } := by
  intro L
  induction L with
  | nil =>
    intro t A hbt horig hlines hrows hcols hwf
    refine ⟨t.primaryBuffer.cursor, ?_⟩
    have he : A ++ List.map (fun l => Line.mk l.cells false) ([] : List Line)
        = t.primaryBuffer.lines := by
      rw [hlines]
      rfl
    rw [he]
    rfl
  | cons l L ihL =>
    intro t A hbt horig hlines hrows hcols hwf
    rw [List.length_cons] at hrows
    rw [List.length_cons, List.replicate_succ] at hlines
    have hlc : l.cells.length = t.primaryBuffer.size.columns :=
      (hwf l (List.mem_cons_self l L)).1
    have hlne : l.cells ≠ [] := by
      intro h0
      rw [h0] at hlc
      simp only [List.length_nil] at hlc
      omega
    have hcmds : emitRows (A.length + 1) (l :: L)
        = (Command.moveCursorTo (A.length + 1) 1 :: emitCells l.cells)
          ++ emitRows (A.length + 1 + 1) L := rfl
    have ht1 : t.applyCommand (Command.moveCursorTo (A.length + 1) 1)
        = { t with primaryBuffer := { t.primaryBuffer with
            cursor := ⟨⟨A.length + 1, 1⟩,
              t.primaryBuffer.cursor.graphicsRendition, false⟩ } } := by
      rw [applyCommand_moveCursorTo, modifyBuffer_primary hbt]
      dsimp only
      rw [moveCursorTo_exact (A.length + 1) 1 horig (by omega) (by omega) (by omega) hcols]
    obtain ⟨g, hg⟩ := emitCells_replay l.cells.length l.cells
      { t with primaryBuffer := { t.primaryBuffer with
          cursor := ⟨⟨A.length + 1, 1⟩,
            t.primaryBuffer.cursor.graphicsRendition, false⟩ } }
      A (List.replicate L.length (blankLine t.primaryBuffer.size.columns)) [] false
      rfl hlne hbt
      (by show t.primaryBuffer.lines
            = A ++ Line.mk ([] ++ List.replicate l.cells.length blankCell) false
                :: List.replicate L.length (blankLine t.primaryBuffer.size.columns)
          rw [hlc]
          exact hlines)
      rfl rfl rfl rfl ((hwf l (List.mem_cons_self l L)).2)
      (by show ([] : List Cell).length + l.cells.length = t.primaryBuffer.size.columns
          simp only [List.length_nil, Nat.zero_add]
          exact hlc)
    obtain ⟨cur, hcur⟩ := ihL
      { t with primaryBuffer := { t.primaryBuffer with
          lines := A ++ Line.mk l.cells false
            :: List.replicate L.length (blankLine t.primaryBuffer.size.columns)
          cursor := ⟨⟨A.length + 1, t.primaryBuffer.size.columns⟩, g,
            t.primaryBuffer.modeSet Mode.autoWrap⟩ } }
      (A ++ [Line.mk l.cells false])
      hbt horig
      (by show (A ++ Line.mk l.cells false
            :: List.replicate L.length (blankLine t.primaryBuffer.size.columns)
            : List Line)
          = (A ++ [Line.mk l.cells false])
              ++ List.replicate L.length (blankLine t.primaryBuffer.size.columns)
          rw [List.append_assoc]
          rfl)
      (by show (A ++ [Line.mk l.cells false]).length + L.length
            = t.primaryBuffer.size.rows
          simp only [List.length_append, List.length_cons, List.length_nil]
          omega)
      hcols
      (fun l2 hl2 => hwf l2 (List.mem_cons_of_mem l hl2))
    have hlen : (A ++ [Line.mk l.cells false]).length + 1 = A.length + 1 + 1 := by
      simp
    rw [hlen] at hcur
    refine ⟨cur, ?_⟩
    rw [hcmds, writeCommands_append, writeCommands_cons, ht1]
    refine (congrArg (fun u => Screen.writeCommands u (emitRows (A.length + 1 + 1) L))
      hg).trans ?_
    refine hcur.trans ?_
    rw [List.append_assoc, List.map_cons]
    rfl

/-- The visible window at scroll offset 0 is exactly the grid. -/
theorem visibleLines_zero {b : ScreenBuffer} (hlen : b.lines.length = b.size.rows) :
    visibleLines b 0 = b.lines := by
  show ((b.savedLines.drop (b.savedLines.length - min 0 b.savedLines.length))
      ++ b.lines).take b.size.rows = b.lines
  rw [Nat.zero_min, Nat.sub_zero, List.drop_length, List.nil_append, ← hlen,
    List.take_length]

/-- The render walk ignores the soft-wrap flags. -/
theorem walkRows_map_cells (L : List Line) :
    ∀ r, walkRows r (L.map (fun l => Line.mk l.cells false)) = walkRows r L := by
  induction L with
  | nil => intro r; rfl
  | cons l L ihL =>
    intro r
    show walkCols r 1 (Line.mk l.cells false).cells
        ++ walkRows (r + 1) (L.map (fun l => Line.mk l.cells false))
      = walkCols r 1 l.cells ++ walkRows (r + 1) L
    rw [ihL]

/-- Text rendering only depends on the cells of each line. -/
theorem renderText_map_cells {b b2 : ScreenBuffer}
    (h : b2.lines = b.lines.map (fun l => Line.mk l.cells false)) :
    b2.renderText = b.renderText := by
  unfold ScreenBuffer.renderText
  rw [h, List.map_map]
  rfl

theorem render_roundtrip_aux {b2 b : ScreenBuffer}
    (hl : b2.lines = b.lines.map (fun l => Line.mk l.cells false))
    (h2 : b2.lines.length = b2.size.rows)
    (h1 : b.lines.length = b.size.rows) :
    walkRows 1 (visibleLines b2 0) = walkRows 1 (visibleLines b 0) := by
  rw [visibleLines_zero h2, visibleLines_zero h1, hl, walkRows_map_cells]

/-- C2: screenshot round trip.  Replaying the command sequence returned by
`screenshot` into a freshly constructed screen of the same size reproduces
the original screen's rendered text, its full visible cell contents
(characters, widths, colors and attributes, via `render`) and its cursor
position. -/
theorem screenshot_roundtrip (s : Screen) (h : Reachable s) :
    ((Screen.initScreen s.size_ none false).writeCommands s.screenshot).renderText
        = s.renderText
    ∧ ((Screen.initScreen s.size_ none false).writeCommands s.screenshot).render 0
        = s.render 0
    ∧ (((Screen.initScreen s.size_ none false).writeCommands
          s.screenshot).currentBuffer).cursor.position
        = s.currentBuffer.cursor.position := by
  obtain ⟨hb, hsz⟩ := currentBuffer_inv (reachable_inv h)
  have hrows0 : s.currentBuffer.lines.length = s.size_.rows := by
    rw [hb.linesLen, hsz]
  have hcols0 : 1 ≤ s.size_.columns := by
    rw [← hsz]
    exact hb.colsPos
  have ht0 : (Screen.initScreen s.size_ none false).applyCommand Command.clearScreen
      = { Screen.initScreen s.size_ none false with
          primaryBuffer := { (Screen.initScreen s.size_ none false).primaryBuffer with
            lines := List.replicate s.size_.rows (blankLine s.size_.columns) } } := by
    rw [applyCommand_clearScreen, modifyBuffer_primary rfl]
    rfl
  obtain ⟨cur, hcur⟩ := emitRows_replay s.currentBuffer.lines
    { Screen.initScreen s.size_ none false with
      primaryBuffer := { (Screen.initScreen s.size_ none false).primaryBuffer with
        lines := List.replicate s.size_.rows (blankLine s.size_.columns) } }
    []
    rfl rfl
    (by show (List.replicate s.size_.rows (blankLine s.size_.columns) : List Line)
          = [] ++ List.replicate s.currentBuffer.lines.length
              (blankLine s.size_.columns)
        rw [hrows0]
        rfl)
    (by show ([] : List Line).length + s.currentBuffer.lines.length = s.size_.rows
        simp only [List.length_nil, Nat.zero_add]
        exact hrows0)
    hcols0
    (fun l hl => ⟨((hb.linesWF l hl).1).trans (congrArg (fun w => w.columns) hsz),
      (hb.linesWF l hl).2⟩)
  have h01 : ([] : List Line).length + 1 = 1 := rfl
  rw [h01] at hcur
  have hmv2 : ScreenBuffer.moveCursorTo
      { (Screen.initScreen s.size_ none false).primaryBuffer with
        lines := s.currentBuffer.lines.map (fun l => Line.mk l.cells false)
        cursor := cur }
      s.currentBuffer.cursor.position.row s.currentBuffer.cursor.position.column
      = { (Screen.initScreen s.size_ none false).primaryBuffer with
          lines := s.currentBuffer.lines.map (fun l => Line.mk l.cells false)
          cursor := ⟨⟨s.currentBuffer.cursor.position.row,
            s.currentBuffer.cursor.position.column⟩,
            cur.graphicsRendition, false⟩ } := by
    apply moveCursorTo_exact
    · rfl
    · exact hb.cursorRowPos
    · show s.currentBuffer.cursor.position.row ≤ s.size_.rows
      rw [← hsz]
      exact hb.cursorRowLe
    · exact hb.cursorColPos
    · show s.currentBuffer.cursor.position.column ≤ s.size_.columns
      rw [← hsz]
      exact hb.cursorColLe
  have hphase1 : Screen.writeCommands (Screen.initScreen s.size_ none false)
      (Command.clearScreen :: emitRows 1 s.currentBuffer.lines)
      = { Screen.initScreen s.size_ none false with
          primaryBuffer := { (Screen.initScreen s.size_ none false).primaryBuffer with
            lines := s.currentBuffer.lines.map (fun l => Line.mk l.cells false)
            cursor := cur } } := by
    rw [writeCommands_cons, ht0]
    exact hcur
  have hrepl : (Screen.initScreen s.size_ none false).writeCommands s.screenshot
      = { Screen.initScreen s.size_ none false with
          primaryBuffer := { (Screen.initScreen s.size_ none false).primaryBuffer with
            lines := s.currentBuffer.lines.map (fun l => Line.mk l.cells false)
            cursor := ⟨⟨s.currentBuffer.cursor.position.row,
              s.currentBuffer.cursor.position.column⟩,
              cur.graphicsRendition, false⟩ } } := by
    show Screen.writeCommands (Screen.initScreen s.size_ none false)
        ((Command.clearScreen :: emitRows 1 s.currentBuffer.lines)
          ++ [Command.moveCursorTo s.currentBuffer.cursor.position.row
                s.currentBuffer.cursor.position.column]) = _
    rw [writeCommands_append, hphase1, writeCommands_cons, writeCommands_nil,
      applyCommand_moveCursorTo, modifyBuffer_primary rfl]
    exact congrArg
      (fun pb => ({ Screen.initScreen s.size_ none false with
        primaryBuffer := pb } : Screen)) hmv2
  have hcb : ((Screen.initScreen s.size_ none false).writeCommands
        s.screenshot).currentBuffer
      = { (Screen.initScreen s.size_ none false).primaryBuffer with
          lines := s.currentBuffer.lines.map (fun l => Line.mk l.cells false)
          cursor := ⟨⟨s.currentBuffer.cursor.position.row,
            s.currentBuffer.cursor.position.column⟩,
            cur.graphicsRendition, false⟩ } := by
    rw [hrepl]
    rfl
  refine ⟨?_, ?_, ?_⟩
  · show ((Screen.initScreen s.size_ none false).writeCommands
        s.screenshot).currentBuffer.renderText = s.currentBuffer.renderText
    rw [hcb]
    exact renderText_map_cells rfl
  · show walkRows 1 (visibleLines ((Screen.initScreen s.size_ none
        false).writeCommands s.screenshot).currentBuffer 0)
      = walkRows 1 (visibleLines s.currentBuffer 0)
    rw [hcb]
    have hlen1 : (s.currentBuffer.lines.map (fun l => Line.mk l.cells false)).length
        = s.size_.rows := by
      rw [List.length_map]
      exact hrows0
    exact render_roundtrip_aux rfl hlen1 hb.linesLen
  · show ((Screen.initScreen s.size_ none false).writeCommands
        s.screenshot).currentBuffer.cursor.position = s.currentBuffer.cursor.position
    rw [hcb]

/-- Witness for C2: the round trip at the reachable 2×2 screen obtained by
writing the byte `A` to a fresh screen. -/
theorem screenshot_roundtrip_witness :
    ((Screen.initScreen ((Screen.initScreen ⟨2, 2⟩ none false).writeByte 0x41).size_
        none false).writeCommands
        ((Screen.initScreen ⟨2, 2⟩ none false).writeByte 0x41).screenshot).renderText
      = ((Screen.initScreen ⟨2, 2⟩ none false).writeByte 0x41).renderText
    ∧ ((Screen.initScreen ((Screen.initScreen ⟨2, 2⟩ none false).writeByte 0x41).size_
        none false).writeCommands
        ((Screen.initScreen ⟨2, 2⟩ none false).writeByte 0x41).screenshot).render 0
      = ((Screen.initScreen ⟨2, 2⟩ none false).writeByte 0x41).render 0
    ∧ (((Screen.initScreen ((Screen.initScreen ⟨2, 2⟩ none false).writeByte
            0x41).size_ none false).writeCommands
          ((Screen.initScreen ⟨2, 2⟩ none false).writeByte
            0x41).screenshot).currentBuffer).cursor.position
      = ((Screen.initScreen ⟨2, 2⟩ none false).writeByte
          0x41).currentBuffer.cursor.position :=
  screenshot_roundtrip ((Screen.initScreen ⟨2, 2⟩ none false).writeByte 0x41)
    (Reachable.write 0x41 (Reachable.init ⟨2, 2⟩ none false (by decide) (by decide)))

end Contour
